import Mathlib

/-!
# Verification of `keyboards/boardsource/unicorne/animation/raytrace.c`

A shallow embedding of the frame generator: vector helpers, the two parametric
surfaces, the z-buffered rasterizer `generateFrame`, the ordered dither and the
byte packer `printOLEDHex`.

Conventions of the embedding

* `float` is an arbitrary linearly ordered field `F` with a floor function, so
  every definition runs on `ℚ` and every theorem holds on `ℝ`.  Rounding,
  infinities and NaN are outside the model.
* The C library functions `sqrtf`, `cosf`, `sinf`, `atan2` and the constant `PI`
  are not part of the program; they are the fields of a `Libm F` argument.
  `Libm.exact` says that they are the real functions and `PI` is `π`.
* `int` is `Int`; no computation here leaves the 32-bit range.
* Arrays are lists; a C array read `a[i]` is `List.getD a i d`, with a default `d`
  that no in-bounds read ever returns.
-/

namespace Raytrace

/-! ## Constants (lines 7-22) -/

def SCREEN_WIDTH : Nat := 32
def SCREEN_HEIGHT : Nat := 128
def NUM_FRAMES : Nat := 32
def NUM_SURFACES : Nat := 2

/-- The C library functions and the constant `PI` the program is linked against. -/
structure Libm (F : Type) where
  sqrtf : F → F
  cosf : F → F
  sinf : F → F
  atan2 : F → F → F
  PI : F

/-- The library is the exact one: real square root, cosine and sine, `atan2 y x` the
argument of `x + y i` in `(-π, π]`, and `PI = π`. -/
def Libm.exact (M : Libm ℝ) : Prop :=
  M.sqrtf = Real.sqrt ∧ M.cosf = Real.cos ∧ M.sinf = Real.sin ∧
    M.atan2 = (fun y x => Complex.arg ⟨x, y⟩) ∧ M.PI = Real.pi

structure vec3 (F : Type) where
  x : F
  y : F
  z : F
deriving DecidableEq, Repr

structure vec2 (F : Type) where
  x : F
  y : F
deriving DecidableEq, Repr

section Core

variable {F : Type} [LinearOrderedField F] [FloorRing F]

def U_DELTA : F := 1 / 1000
def V_DELTA : F := 1 / 1000
def K1 : F := 4
def K2 : F := 6
def WIDTH_SCALE : F := 13 / 10

/-- Line 14: `PHI_DELTA = PI / NUM_FRAMES`. -/
def PHI_DELTA (M : Libm F) : F := M.PI / (NUM_FRAMES : F)

/-- Line 22: the light position `L = {0, -2, 1.2f}`. -/
def L : vec3 F := ⟨0, -2, 12 / 10⟩

/-! ## Basic math (lines 28-49) -/

def dot (a b : vec3 F) : F :=
  a.x * b.x + a.y * b.y + a.z * b.z

def magnitude2 (M : Libm F) (a b : F) : F :=
  M.sqrtf (a * a + b * b)

def normalize (M : Libm F) (v : vec3 F) : vec3 F :=
  let n := M.sqrtf (dot v v)
  ⟨v.x / n, v.y / n, v.z / n⟩

def lightCurve (x : F) : F :=
  if x > 0 then 3 / 10 + 7 / 10 * x
  else 1 / 10 - 4 / 10 * x

def get2DIndex (x y : Int) : Int :=
  y * (SCREEN_WIDTH : Int) + x

/-! ## Dithering (lines 55-65)

The C operator `%` truncates toward zero: `Int.tmod`.  A C comparison yields the
`int` 1 or 0. -/

def dither (l : F) (x y : Int) : Int :=
  if l ≤ 0 then 0
  else if l ≤ 11 / 100 then (if x.tmod 3 = 0 ∧ y.tmod 3 = 0 then 1 else 0)
  else if l ≤ 25 / 100 then (if x.tmod 2 = 0 ∧ y.tmod 2 = 0 then 1 else 0)
  else if l ≤ 33 / 100 then (if (x + y).tmod 3 = 0 then 1 else 0)
  else if l ≤ 5 / 10 then (if (x + y).tmod 2 = 0 then 1 else 0)
  else if l ≤ 66 / 100 then (if (x + y).tmod 3 ≠ 0 then 1 else 0)
  else if l ≤ 75 / 100 then (if x.tmod 2 = 0 ∨ y.tmod 2 = 0 then 1 else 0)
  else if l ≤ 88 / 100 then (if x.tmod 3 ≠ 0 ∨ y.tmod 3 ≠ 0 then 1 else 0)
  else 1

/-! ## Geometry: the twisted strip (lines 71-87) -/

def defaultUV (M : Libm F) (u v : F) (i : Int) : vec3 F :=
  let stripWidth := M.PI / (NUM_SURFACES : F)
  let alpha := 2 * stripWidth * (i : F)
  let r := WIDTH_SCALE * (M.cosf (M.PI * v) + 1) / 2
  let theta := 2 * M.PI * v + stripWidth * u / 2 + alpha
  ⟨r * M.cosf theta, r * M.sinf theta, v⟩

def defaultNormal (M : Libm F) (coords : vec3 F) (_i : Int) : vec3 F :=
  if coords.x = 0 ∧ coords.y = 0 then ⟨0, 0, 0⟩
  else
    let m := magnitude2 M coords.x coords.y *
      (WIDTH_SCALE * M.PI / 2 * M.sinf (M.PI * coords.z))
    normalize M ⟨coords.x, coords.y, m⟩

/-! ## Geometry: the torus (lines 89-111) -/

def r0 : F := 1
def r1 : F := 1 / 2

def torusUV (M : Libm F) (u v : F) (_i : Int) : vec3 F :=
  let r := r0 + r1 * M.cosf (M.PI * v)
  let theta := M.PI * u
  let y := r * M.cosf theta
  let z := r * M.sinf theta
  let x := r1 * M.sinf (M.PI * v)
  ⟨x, y, z⟩

def torusNormal (M : Libm F) (coords : vec3 F) (_i : Int) : vec3 F :=
  let y := coords.y
  let z := coords.z
  let theta := M.atan2 z y
  normalize M ⟨coords.x, y - r0 * M.cosf theta, z - M.sinf theta⟩

/-- The point of the torus's central circle nearest to `p`, as the specification
describes it: radius `r0` in the y-z plane, at the angle `atan2(p.z, p.y)`. -/
def torusCircleNearest (M : Libm F) (p : vec3 F) : vec3 F :=
  let theta := M.atan2 p.z p.y
  ⟨0, r0 * M.cosf theta, r0 * M.sinf theta⟩

/-- The torus normal in the specification's words: the normalized vector from the
surface point `p` to the nearest point of the central circle. -/
def torusNormalSpec (M : Libm F) (p : vec3 F) : vec3 F :=
  let c := torusCircleNearest M p
  normalize M ⟨c.x - p.x, c.y - p.y, c.z - p.z⟩

/-- The opposite unit vector: from the nearest point of the central circle to the
surface point `p`. -/
def torusNormalOutward (M : Libm F) (p : vec3 F) : vec3 F :=
  let c := torusCircleNearest M p
  normalize M ⟨p.x - c.x, p.y - c.y, p.z - c.z⟩

/-! ## Frame generation (lines 117-160) -/

/-- The two buffers of `generateFrame`: the caller's `frameData` and the local
`zBuffer`. -/
structure FrameBuffers (F : Type) where
  frameData : List F
  zBuffer : List F

/-- Line 119: `frameData[i]=0; zBuffer[i]=1000;` for every `i`. -/
def clearBuffers : FrameBuffers F :=
  { frameData := List.replicate (SCREEN_WIDTH * SCREEN_HEIGHT) 0
    zBuffer := List.replicate (SCREEN_WIDTH * SCREEN_HEIGHT) 1000 }

/-- Lines 130-132 (and 151 for the normal): rotation about the z axis by the angle
whose cosine and sine are given. -/
def rotateZ (cosPhi sinPhi : F) (p : vec3 F) : vec3 F :=
  ⟨cosPhi * p.x - sinPhi * p.y, sinPhi * p.x + cosPhi * p.y, p.z⟩

/-- Line 134: `coordsTrans = { coordsRot.x+K2, coordsRot.y, coordsRot.z }`. -/
def translateK2 (coordsRot : vec3 F) : vec3 F :=
  ⟨coordsRot.x + K2, coordsRot.y, coordsRot.z⟩

/-- Lines 135-136: perspective projection of the translated point. -/
def project (coordsTrans : vec3 F) : vec2 F :=
  let perspectiveScale := K1 / coordsTrans.x
  ⟨coordsTrans.y * perspectiveScale, coordsTrans.z * perspectiveScale⟩

/-- The C conversion `(int)f`: truncation toward zero. -/
def truncToInt (f : F) : Int :=
  if 0 ≤ f then Int.floor f else Int.ceil f

/-- Line 138: `px = (int)((screenCoords.x/2.0f + 0.5f)*SCREEN_WIDTH)`. -/
def pixelX (screenCoords : vec2 F) : Int :=
  truncToInt ((screenCoords.x / 2 + 1 / 2) * (SCREEN_WIDTH : F))

/-- Line 139: `py = (int)((screenCoords.y/2.0f + 0.5f)*SCREEN_HEIGHT)`. -/
def pixelY (screenCoords : vec2 F) : Int :=
  truncToInt ((screenCoords.y / 2 + 1 / 2) * (SCREEN_HEIGHT : F))

/-- Lines 147-148: the light direction `VL`. -/
def lightDir (M : Libm F) (coordsTrans : vec3 F) : vec3 F :=
  normalize M ⟨L.x - coordsTrans.x, L.y - coordsTrans.y, L.z - coordsTrans.z⟩

/-- Lines 153-154: the two clamping statements. -/
def clamp01 (brightness : F) : F :=
  let brightness := if brightness < 0 then 0 else brightness
  if brightness > 1 then 1 else brightness

/-- Lines 147-154: the brightness of a sample that passed the depth test. -/
def shade (M : Libm F) (cosPhi sinPhi : F) (normal : vec3 F → Int → vec3 F)
    (coordsObj coordsTrans : vec3 F) (iSurf : Int) : F :=
  let VL := lightDir M coordsTrans
  let N := normal coordsObj iSurf
  let NR := rotateZ cosPhi sinPhi N
  clamp01 (lightCurve (dot VL NR))

/-- Lines 144-145 and 156: the depth test and the two stores at pixel `idx`. -/
def zStore (st : FrameBuffers F) (idx : Nat) (depth brightness : F) : FrameBuffers F :=
  if st.zBuffer.getD idx 0 < depth then st
  else
    { frameData := st.frameData.set idx brightness
      zBuffer := st.zBuffer.set idx depth }

/-- Lines 127-156: the body of the innermost loop for one sample `(iSurf, v, u)`. -/
def sampleStep (M : Libm F) (cosPhi sinPhi : F) (uv : F → F → Int → vec3 F)
    (normal : vec3 F → Int → vec3 F) (st : FrameBuffers F) (s : Int × F × F) :
    FrameBuffers F :=
  let iSurf := s.1
  let v := s.2.1
  let u := s.2.2
  let coordsObj := uv u v iSurf
  let coordsRot := rotateZ cosPhi sinPhi coordsObj
  let coordsTrans := translateK2 coordsRot
  let screenCoords := project coordsTrans
  let px := pixelX screenCoords
  let py := pixelY screenCoords
  if px < 0 ∨ px ≥ (SCREEN_WIDTH : Int) ∨ py < 0 ∨ py ≥ (SCREEN_HEIGHT : Int) then st
  else
    let idx := get2DIndex px py
    zStore st idx.toNat coordsTrans.x (shade M cosPhi sinPhi normal coordsObj coordsTrans iSurf)

/-- Lines 119-159 with the loop nest replaced by the list of the samples
`(iSurf, v, u)` it visits, in order. -/
def generateFrameOn (M : Libm F) (phi : F) (uv : F → F → Int → vec3 F)
    (normal : vec3 F → Int → vec3 F) (samples : List (Int × F × F)) : FrameBuffers F :=
  samples.foldl (sampleStep M (M.cosf phi) (M.sinf phi) uv normal) clearBuffers

/-- The values taken by `for (float v = start; v < 1; v += delta)`, at most `fuel`
of them. -/
def floatLoop (delta : F) : Nat → F → List F
  | 0, _ => []
  | fuel + 1, v => if v < 1 then v :: floatLoop delta fuel (v + delta) else []

/-- Lines 124-126: the samples in sweep order (surface, then `v`, then `u`). In
exact arithmetic each inner loop makes 2000 iterations. -/
def sweepSamples : List (Int × F × F) :=
  (List.range NUM_SURFACES).flatMap fun iSurf =>
    (floatLoop V_DELTA 2000 (-1)).flatMap fun v =>
      (floatLoop U_DELTA 2000 (-1)).map fun u => ((iSurf : Int), v, u)

def generateFrame (M : Libm F) (phi : F) (uv : F → F → Int → vec3 F)
    (normal : vec3 F → Int → vec3 F) : FrameBuffers F :=
  generateFrameOn M phi uv normal sweepSamples

/-- The z-buffer update alone, folded over samples already projected to a pixel
index, a depth and a brightness. -/
def storeAll (st : FrameBuffers F) (hits : List (Nat × F × F)) : FrameBuffers F :=
  hits.foldl (fun st h => zStore st h.1 h.2.1 h.2.2) st

/-- Lines 127-154 without the buffers: the pixel index, the depth and the brightness
of the sample `(iSurf, v, u)`, or `none` when line 141 discards it. -/
def sampleHit (M : Libm F) (cosPhi sinPhi : F) (uv : F → F → Int → vec3 F)
    (normal : vec3 F → Int → vec3 F) (s : Int × F × F) : Option (Nat × F × F) :=
  let coordsObj := uv s.2.2 s.2.1 s.1
  let coordsTrans := translateK2 (rotateZ cosPhi sinPhi coordsObj)
  let px := pixelX (project coordsTrans)
  let py := pixelY (project coordsTrans)
  if px < 0 ∨ px ≥ (SCREEN_WIDTH : Int) ∨ py < 0 ∨ py ≥ (SCREEN_HEIGHT : Int) then none
  else some ((get2DIndex px py).toNat, coordsTrans.x,
    shade M cosPhi sinPhi normal coordsObj coordsTrans s.1)

/-- Lines 127-136: the screen coordinates of the sample `(iSurf, v, u)`. -/
def sampleScreenCoords (cosPhi sinPhi : F) (uv : F → F → Int → vec3 F)
    (s : Int × F × F) : vec2 F :=
  project (translateK2 (rotateZ cosPhi sinPhi (uv s.2.2 s.2.1 s.1)))

/-! ## Dither to characters and byte packing (lines 211-255) -/

/-- Lines 251-255. -/
def convertFrameToOLEDChars (frameData : List F) : List Char :=
  (List.range (SCREEN_WIDTH * SCREEN_HEIGHT)).map fun i =>
    if dither (frameData.getD i 0) ((i : Int) % (SCREEN_WIDTH : Int))
        ((i : Int) / (SCREEN_WIDTH : Int)) ≠ 0 then '#' else ' '

/-- Lines 217-221: the body of the `bit` loop, updating `byte`. -/
def packBit (buffer : List Char) (xBlock y : Nat) (byte bit : Nat) : Nat :=
  let px := xBlock * 8 + bit
  let py := y
  if px ≥ SCREEN_WIDTH ∨ py ≥ SCREEN_HEIGHT then byte
  else
    let idx := get2DIndex px py
    if buffer.getD idx.toNat ' ' = '#' then byte ||| (1 <<< bit) else byte

/-- Lines 219-221 as a truth value: iteration `bit` of the loop sets its bit. -/
def bitIsSet (buffer : List Char) (xBlock y bit : Nat) : Bool :=
  decide (¬ (xBlock * 8 + bit ≥ SCREEN_WIDTH ∨ y ≥ SCREEN_HEIGHT) ∧
    buffer.getD (get2DIndex (xBlock * 8 + bit : Nat) y).toNat ' ' = '#')

/-- Lines 215-222: the byte built for column block `xBlock` and row `y`. -/
def packByte (buffer : List Char) (xBlock y : Nat) : Nat :=
  (List.range 8).foldl (packBit buffer xBlock y) 0

/-- Lines 213-230: the bytes printed, one inner list per output line (one line per
`xBlock`). -/
def printOLEDHexLines (buffer : List Char) : List (List Nat) :=
  (List.range 8).map fun xBlock => (List.range 128).map fun y => packByte buffer xBlock y

/-- The bytes printed by `printOLEDHex`, in the order printed. -/
def printOLEDHex (buffer : List Char) : List Nat :=
  (printOLEDHexLines buffer).flatten

/-! ## ASCII preview (lines 170-188) -/

/-- Line 171: the array `shades`, the 12 ramp characters followed by the terminating
NUL that the string literal adds; `sizeof(shades)` is its length, 13. -/
def shades : List Char := " ,-~:;=!*$@#".toList ++ [Char.ofNat 0]

/-- Line 181: `s = (int)(frameData[idx]*(sizeof(shades)-1))`. -/
def shadeIndex (brightness : F) : Int :=
  truncToInt (brightness * ((shades.length - 1 : Nat) : F))

/-- Line 182: the character `shades[s]` stored for a pixel. -/
def shadeChar (brightness : F) : Char :=
  shades.getD (shadeIndex brightness).toNat (Char.ofNat 0)

/-- Lines 172-185: the character buffer built by `printFrameASCII`.  It is filled from
its last position downwards: a newline, then the 32 pixels of a row, for each row. -/
def printFrameASCII (frameData : List F) : List Char :=
  ((List.range SCREEN_HEIGHT).flatMap fun y =>
    Char.ofNat 10 :: (List.range SCREEN_WIDTH).map fun x =>
      shadeChar (frameData.getD (y * SCREEN_WIDTH + x) 0)).reverse

/-! ## Frame loops (lines 235-286) -/

/-- The loop shared by the three drivers: `phi = 0; for (f = 0; f < NUM_FRAMES; f++)
{ phi += PHI_DELTA; body(f, phi); }`, returning what the body produced, in order. -/
def frameLoop {A : Type} (M : Libm F) (body : Nat → F → A) : List A :=
  ((List.range NUM_FRAMES).foldl
    (fun (st : F × List A) f =>
      let phi := st.1 + PHI_DELTA M
      (phi, st.2 ++ [body f phi]))
    (0, [])).2

/-- Lines 235-245: the ASCII buffers printed, one per frame. -/
def asciiOledDataToConsole (M : Libm F) (uv : F → F → Int → vec3 F)
    (normal : vec3 F → Int → vec3 F) : List (List Char) :=
  frameLoop M fun _ phi => printFrameASCII (generateFrame M phi uv normal).frameData

/-- Lines 257-270: the dithered character buffers shown, one per frame. -/
def renderOledDataToConsole (M : Libm F) (uv : F → F → Int → vec3 F)
    (normal : vec3 F → Int → vec3 F) : List (List Char) :=
  frameLoop M fun _ phi => convertFrameToOLEDChars (generateFrame M phi uv normal).frameData

/-- Lines 272-286: for each frame, its number `f` and the bytes printed for it. -/
def printOledDataToHexConsole (M : Libm F) (uv : F → F → Int → vec3 F)
    (normal : vec3 F → Int → vec3 F) : List (Nat × List Nat) :=
  frameLoop M fun f phi =>
    (f, printOLEDHex (convertFrameToOLEDChars (generateFrame M phi uv normal).frameData))

end Core

/-- The decoding of section 4.6 of the specification, written from its words: the
pixel at column `x`, row `y` is bit `x mod 8` of the byte found at position
`(x div 8) * 128 + y` (block-major, then row); a set bit is `#`, a clear bit a blank. -/
def unpackOLED (bytes : List Nat) : List Char :=
  (List.range (SCREEN_WIDTH * SCREEN_HEIGHT)).map fun i =>
    let x := i % SCREEN_WIDTH
    let y := i / SCREEN_WIDTH
    if (bytes.getD ((x / 8) * 128 + y) 0).testBit (x % 8) then '#' else ' '

/-- The number of lit pixels of the 6 x 6 window with origin `(x0, y0)` at brightness
`l`. -/
def ditherCount {F : Type} [LinearOrderedField F] (l : F) (x0 y0 : Int) : Nat :=
  ((List.range 6).flatMap fun (i : Nat) => (List.range 6).map fun (j : Nat) =>
    if dither l (x0 + (i : Int)) (y0 + (j : Int)) ≠ 0 then 1 else 0).sum

/-- The lit count per band that the claim on dither density announces:
0, 4, 9, 12, 18, 24, 27, 32, 36 in increasing brightness order. -/
def bandCount {F : Type} [LinearOrderedField F] (l : F) : Nat :=
  if l ≤ 0 then 0
  else if l ≤ 11 / 100 then 4
  else if l ≤ 25 / 100 then 9
  else if l ≤ 33 / 100 then 12
  else if l ≤ 5 / 10 then 18
  else if l ≤ 66 / 100 then 24
  else if l ≤ 75 / 100 then 27
  else if l ≤ 88 / 100 then 32
  else 36

/-- The number, from 0 to 8, of the band of the threshold ladder that `l` falls in. -/
def bandIndex {F : Type} [LinearOrderedField F] (l : F) : Nat :=
  if l ≤ 0 then 0
  else if l ≤ 11 / 100 then 1
  else if l ≤ 25 / 100 then 2
  else if l ≤ 33 / 100 then 3
  else if l ≤ 5 / 10 then 4
  else if l ≤ 66 / 100 then 5
  else if l ≤ 75 / 100 then 6
  else if l ≤ 88 / 100 then 7
  else 8

/-- The value `dither` returns in band `k` (lines 56-64, one line per band). -/
def bandPattern (k : Nat) (x y : Int) : Int :=
  match k with
  | 0 => 0
  | 1 => if x.tmod 3 = 0 ∧ y.tmod 3 = 0 then 1 else 0
  | 2 => if x.tmod 2 = 0 ∧ y.tmod 2 = 0 then 1 else 0
  | 3 => if (x + y).tmod 3 = 0 then 1 else 0
  | 4 => if (x + y).tmod 2 = 0 then 1 else 0
  | 5 => if (x + y).tmod 3 ≠ 0 then 1 else 0
  | 6 => if x.tmod 2 = 0 ∨ y.tmod 2 = 0 then 1 else 0
  | 7 => if x.tmod 3 ≠ 0 ∨ y.tmod 3 ≠ 0 then 1 else 0
  | _ => 1

/-- The number of lit pixels of the 6 x 6 window with origin `(x0, y0)` under the
pattern of band `k`. -/
def patternCount (k : Nat) (x0 y0 : Int) : Nat :=
  ((List.range 6).flatMap fun (i : Nat) => (List.range 6).map fun (j : Nat) =>
    if bandPattern k (x0 + (i : Int)) (y0 + (j : Int)) ≠ 0 then 1 else 0).sum

/-- The lit count of band `k`, from the table 0, 4, 9, 12, 18, 24, 27, 32, 36. -/
def countOfBand (k : Nat) : Nat :=
  [0, 4, 9, 12, 18, 24, 27, 32, 36].getD k 36

/-! # Theorems -/

section DitherFacts

variable {F : Type} [LinearOrderedField F]

/-- The truncating remainder is zero exactly when the Euclidean one is. -/
theorem tmod_eq_zero_iff_emod (a n : Int) : a.tmod n = 0 ↔ a % n = 0 := by
  rw [← Int.dvd_iff_tmod_eq_zero, Int.dvd_iff_emod_eq_zero]

/-- The band `0 < l ≤ 0.11` lights exactly the pixels with `x` and `y` multiples of 3. -/
theorem dither_eq_band2 (l : F) (x y : Int) (h0 : 0 < l) (h1 : l ≤ 11 / 100) :
    dither l x y = if x % 3 = 0 ∧ y % 3 = 0 then 1 else 0 := by
  simp only [dither, not_le.mpr h0, h1, if_true, if_false, tmod_eq_zero_iff_emod]

/-- The band `0.11 < l ≤ 0.25` lights exactly the pixels with `x` and `y` even. -/
theorem dither_eq_band3 (l : F) (x y : Int) (h0 : 11 / 100 < l) (h1 : l ≤ 25 / 100) :
    dither l x y = if x % 2 = 0 ∧ y % 2 = 0 then 1 else 0 := by
  have a0 : ¬ l ≤ 0 := by linarith
  simp only [dither, a0, not_le.mpr h0, h1, if_true, if_false, tmod_eq_zero_iff_emod]

/-- The band `0.33 < l ≤ 0.5` is the checkerboard `x + y` even. -/
theorem dither_eq_band5 (l : F) (x y : Int) (h0 : 33 / 100 < l) (h1 : l ≤ 5 / 10) :
    dither l x y = if (x + y) % 2 = 0 then 1 else 0 := by
  have a0 : ¬ l ≤ 0 := by linarith
  have a1 : ¬ l ≤ 11 / 100 := by linarith
  have a2 : ¬ l ≤ 25 / 100 := by linarith
  simp only [dither, a0, a1, a2, not_le.mpr h0, h1, if_true, if_false, tmod_eq_zero_iff_emod]

/-- The band `0.5 < l ≤ 0.66` lights a pixel unless `x + y` is a multiple of 3. -/
theorem dither_eq_band6 (l : F) (x y : Int) (h0 : 5 / 10 < l) (h1 : l ≤ 66 / 100) :
    dither l x y = if (x + y) % 3 ≠ 0 then 1 else 0 := by
  have a0 : ¬ l ≤ 0 := by linarith
  have a1 : ¬ l ≤ 11 / 100 := by linarith
  have a2 : ¬ l ≤ 25 / 100 := by linarith
  have a3 : ¬ l ≤ 33 / 100 := by linarith
  simp only [dither, a0, a1, a2, a3, not_le.mpr h0, h1, if_true, if_false, ne_eq,
    tmod_eq_zero_iff_emod]

/-- The remainder tests of `dither` only see `x` and `y` modulo 2 and modulo 3. -/
theorem dither_congr (l : F) (x y x2 y2 : Int)
    (hx2 : x % 2 = x2 % 2) (hx3 : x % 3 = x2 % 3)
    (hy2 : y % 2 = y2 % 2) (hy3 : y % 3 = y2 % 3) :
    dither l x y = dither l x2 y2 := by
  have s2 : (x + y) % 2 = (x2 + y2) % 2 := by omega
  have s3 : (x + y) % 3 = (x2 + y2) % 3 := by omega
  simp only [dither, ne_eq, tmod_eq_zero_iff_emod, hx2, hx3, hy2, hy3, s2, s3]

end DitherFacts

/-- C4 (as stated, refuted): at brightness 0.2 the pixel (3, 3) is off, although both
coordinates are multiples of 3. -/
theorem dither_at_one_fifth_pixel_3_3_off : dither (2 / 10 : ℚ) 3 3 = 0 := by
  rw [dither_eq_band3 _ _ _ (by norm_num) (by norm_num)]
  decide

/-- C4 (amended): brightness 0.2 lies in the band `0.11 < l ≤ 0.25`, whose pattern is
"x and y both even": (3, 3) and (3, 4) are off and (2, 2) is on.  The "multiples of 3"
pattern is the one of the band `0 < l ≤ 0.11`: at brightness 0.1 the pixel (3, 3) is on
and (3, 4) is off. -/
theorem dither_spot_check {F : Type} [LinearOrderedField F] :
    (∀ x y : Int, dither (2 / 10 : F) x y = if x % 2 = 0 ∧ y % 2 = 0 then 1 else 0) ∧
    dither (2 / 10 : F) 3 3 = 0 ∧ dither (2 / 10 : F) 3 4 = 0 ∧
    dither (2 / 10 : F) 2 2 = 1 ∧
    (∀ x y : Int, dither (1 / 10 : F) x y = if x % 3 = 0 ∧ y % 3 = 0 then 1 else 0) ∧
    dither (1 / 10 : F) 3 3 = 1 ∧ dither (1 / 10 : F) 3 4 = 0 := by
  have b3 : ∀ x y : Int, dither (2 / 10 : F) x y = if x % 2 = 0 ∧ y % 2 = 0 then 1 else 0 :=
    fun x y => dither_eq_band3 _ x y (by norm_num) (by norm_num)
  have b2 : ∀ x y : Int, dither (1 / 10 : F) x y = if x % 3 = 0 ∧ y % 3 = 0 then 1 else 0 :=
    fun x y => dither_eq_band2 _ x y (by norm_num) (by norm_num)
  refine ⟨b3, ?_, ?_, ?_, b2, ?_, ?_⟩
  · rw [b3]; decide
  · rw [b3]; decide
  · rw [b3]; decide
  · rw [b2]; decide
  · rw [b2]; decide

/-- C5 (as stated, refuted): in band 5 (brightness 0.4) the pixel (0, 0) is on although
`0 + 0` is a multiple of 3, and the pixel (1, 0) is off although `1 + 0` is not. -/
theorem dither_band5_not_mod3 :
    dither (4 / 10 : ℚ) 0 0 = 1 ∧ (0 + 0 : Int) % 3 = 0 ∧
    dither (4 / 10 : ℚ) 1 0 = 0 ∧ (1 + 0 : Int) % 3 ≠ 0 := by
  refine ⟨?_, by decide, ?_, by decide⟩
  · rw [dither_eq_band5 _ _ _ (by norm_num) (by norm_num)]; decide
  · rw [dither_eq_band5 _ _ _ (by norm_num) (by norm_num)]; decide

/-- C5 (amended): for every brightness in band 5 (`0.33 < l ≤ 0.5`) and all pixel
coordinates, `dither l x y` is on exactly when `x + y` is even (and then it is 1). -/
theorem dither_band5_checkerboard {F : Type} [LinearOrderedField F] (l : F) (x y : Int)
    (hlo : 33 / 100 < l) (hhi : l ≤ 5 / 10) :
    (dither l x y ≠ 0 ↔ (x + y) % 2 = 0) ∧ (dither l x y = 1 ∨ dither l x y = 0) := by
  rw [dither_eq_band5 l x y hlo hhi]
  by_cases h : (x + y) % 2 = 0 <;> simp [h]

/-- Witness of C5 at brightness 0.4, pixel (1, 1). -/
theorem dither_band5_checkerboard_witness :
    (33 / 100 : ℚ) < 4 / 10 ∧ (4 / 10 : ℚ) ≤ 5 / 10 ∧
    ((dither (4 / 10 : ℚ) 1 1 ≠ 0 ↔ ((1 : Int) + 1) % 2 = 0) ∧
      (dither (4 / 10 : ℚ) 1 1 = 1 ∨ dither (4 / 10 : ℚ) 1 1 = 0)) :=
  ⟨by norm_num, by norm_num, dither_band5_checkerboard (4 / 10) 1 1 (by norm_num) (by norm_num)⟩

/-- C6: `dither` sees the pixel position only through `x mod 2`, `x mod 3`, `y mod 2`
and `y mod 3`; in particular it has period 6 in `x` and in `y`.  (The coordinates of
the claim are non-negative; the statement holds for all integers.) -/
theorem dither_depends_on_residues {F : Type} [LinearOrderedField F] (l : F)
    (x y x2 y2 : Int)
    (hxm2 : x % 2 = x2 % 2) (hxm3 : x % 3 = x2 % 3)
    (hym2 : y % 2 = y2 % 2) (hym3 : y % 3 = y2 % 3) :
    dither l x y = dither l x2 y2 ∧
    dither l (x + 6) y = dither l x y ∧ dither l x (y + 6) = dither l x y := by
  refine ⟨dither_congr l x y x2 y2 hxm2 hxm3 hym2 hym3, ?_, ?_⟩
  · exact dither_congr l _ _ _ _ (by omega) (by omega) rfl rfl
  · exact dither_congr l _ _ _ _ rfl rfl (by omega) (by omega)

/-- Witness of C6 at brightness 0.6, pixels (1, 2) and (7, 14). -/
theorem dither_depends_on_residues_witness :
    (1 : Int) % 2 = 7 % 2 ∧ (1 : Int) % 3 = 7 % 3 ∧
    (2 : Int) % 2 = 14 % 2 ∧ (2 : Int) % 3 = 14 % 3 ∧
    (dither (6 / 10 : ℚ) 1 2 = dither (6 / 10 : ℚ) 7 14 ∧
      dither (6 / 10 : ℚ) (1 + 6) 2 = dither (6 / 10 : ℚ) 1 2 ∧
      dither (6 / 10 : ℚ) 1 (2 + 6) = dither (6 / 10 : ℚ) 1 2) :=
  ⟨by decide, by decide, by decide, by decide,
    dither_depends_on_residues (6 / 10) 1 2 7 14 (by decide) (by decide) (by decide)
      (by decide)⟩

/-! ## The z-buffer update -/

section ZBufferFacts

variable {F : Type} [LinearOrderedField F]

theorem zStore_frameData_length (st : FrameBuffers F) (idx : Nat) (d b : F) :
    (zStore st idx d b).frameData.length = st.frameData.length := by
  unfold zStore
  split <;> simp

theorem zStore_zBuffer_length (st : FrameBuffers F) (idx : Nat) (d b : F) :
    (zStore st idx d b).zBuffer.length = st.zBuffer.length := by
  unfold zStore
  split <;> simp

/-- The depth stored at pixel `p` after one update: the smaller of the old depth and
the new one when the sample lands on `p`, the old depth otherwise. -/
theorem zStore_zBuffer_at (st : FrameBuffers F) (idx p : Nat) (d b z : F)
    (hz : st.zBuffer[p]? = some z) :
    (zStore st idx d b).zBuffer[p]? = some (if idx = p then min z d else z) := by
  obtain ⟨hlt, _⟩ := List.getElem?_eq_some.mp hz
  unfold zStore
  by_cases hip : idx = p
  · subst hip
    have hg : st.zBuffer.getD idx 0 = z := by
      rw [List.getD_eq_getElem?_getD, hz]; rfl
    rw [hg]
    by_cases hlt2 : z < d
    · simp [hlt2, hz, min_eq_left (le_of_lt hlt2)]
    · simp [hlt2, hlt, min_eq_right (not_lt.mp hlt2)]
  · split
    · simp [hip, hz]
    · simp [hip, hz, List.getElem?_set]

/-- The brightness stored at pixel `p` after one update: the sample's brightness when
it lands on `p` with a depth not larger than the stored one, the old value otherwise. -/
theorem zStore_frameData_at (st : FrameBuffers F) (idx p : Nat) (d b z f : F)
    (hz : st.zBuffer[p]? = some z) (hf : st.frameData[p]? = some f) :
    (zStore st idx d b).frameData[p]? = some (if idx = p ∧ d ≤ z then b else f) := by
  obtain ⟨hlt, _⟩ := List.getElem?_eq_some.mp hf
  unfold zStore
  by_cases hip : idx = p
  · subst hip
    have hg : st.zBuffer.getD idx 0 = z := by
      rw [List.getD_eq_getElem?_getD, hz]; rfl
    rw [hg]
    by_cases hlt2 : z < d
    · simp [hlt2, hf, not_le.mpr hlt2]
    · simp [hlt2, hlt, not_lt.mp hlt2]
  · split
    · simp [hip, hf]
    · simp [hip, hf, List.getElem?_set]

theorem storeAll_cons (st : FrameBuffers F) (h : Nat × F × F) (t : List (Nat × F × F)) :
    storeAll st (h :: t) = storeAll (zStore st h.1 h.2.1 h.2.2) t := rfl

theorem storeAll_append (st : FrameBuffers F) (l1 l2 : List (Nat × F × F)) :
    storeAll st (l1 ++ l2) = storeAll (storeAll st l1) l2 := by
  simp [storeAll, List.foldl_append]

theorem storeAll_lengths (hits : List (Nat × F × F)) (st : FrameBuffers F) :
    (storeAll st hits).frameData.length = st.frameData.length ∧
    (storeAll st hits).zBuffer.length = st.zBuffer.length := by
  induction hits generalizing st with
  | nil => exact ⟨rfl, rfl⟩
  | cons h t ih =>
    rw [storeAll_cons]
    obtain ⟨h1, h2⟩ := ih (zStore st h.1 h.2.1 h.2.2)
    exact ⟨h1.trans (zStore_frameData_length _ _ _ _), h2.trans (zStore_zBuffer_length _ _ _ _)⟩

/-- After any sequence of updates the depth stored at `p` is at most the initial one,
at most the depth of every sample that landed on `p`, and is either the initial depth
or the depth of one of those samples. -/
theorem storeAll_depth (p : Nat) (hits : List (Nat × F × F)) :
    ∀ (st : FrameBuffers F) (z0 : F), st.zBuffer[p]? = some z0 →
      ∃ z, (storeAll st hits).zBuffer[p]? = some z ∧ z ≤ z0 ∧
        (∀ h ∈ hits, h.1 = p → z ≤ h.2.1) ∧
        (z = z0 ∨ ∃ h ∈ hits, h.1 = p ∧ h.2.1 = z) := by
  induction hits with
  | nil =>
    intro st z0 hz
    exact ⟨z0, hz, le_refl _, by simp, Or.inl rfl⟩
  | cons h t ih =>
    intro st z0 hz
    rw [storeAll_cons]
    have h1 := zStore_zBuffer_at st h.1 p h.2.1 h.2.2 z0 hz
    obtain ⟨z, hz1, hle, hall, hatt⟩ := ih _ _ h1
    refine ⟨z, hz1, ?_, ?_, ?_⟩
    · refine le_trans hle ?_
      split
      · exact min_le_left _ _
      · exact le_refl _
    · intro h2 hmem hp
      rcases List.mem_cons.mp hmem with rfl | hin
      · refine le_trans hle ?_
        rw [if_pos hp]
        exact min_le_right _ _
      · exact hall h2 hin hp
    · rcases hatt with heq | ⟨h2, hin, hp, hd⟩
      · by_cases hp : h.1 = p
        · rw [if_pos hp] at heq
          rcases min_choice z0 h.2.1 with hm | hm
          · left; rw [heq, hm]
          · right; exact ⟨h, List.mem_cons_self _ _, hp, by rw [heq, hm]⟩
        · rw [if_neg hp] at heq
          exact Or.inl heq
      · right; exact ⟨h2, List.mem_cons_of_mem _ hin, hp, hd⟩

/-- Samples that land on `p` with a depth strictly larger than the stored one, and
samples that land elsewhere, leave pixel `p` untouched. -/
theorem storeAll_frozen (p : Nat) (hits : List (Nat × F × F)) :
    ∀ (st : FrameBuffers F) (d b : F), st.zBuffer[p]? = some d →
      st.frameData[p]? = some b → (∀ h ∈ hits, h.1 = p → d < h.2.1) →
      (storeAll st hits).zBuffer[p]? = some d ∧ (storeAll st hits).frameData[p]? = some b := by
  induction hits with
  | nil => intro st d b hz hf _; exact ⟨hz, hf⟩
  | cons h t ih =>
    intro st d b hz hf hall
    rw [storeAll_cons]
    have hz1 := zStore_zBuffer_at st h.1 p h.2.1 h.2.2 d hz
    have hf1 := zStore_frameData_at st h.1 p h.2.1 h.2.2 d b hz hf
    have hz2 : (zStore st h.1 h.2.1 h.2.2).zBuffer[p]? = some d := by
      rw [hz1]
      by_cases hp : h.1 = p
      · have := hall h (List.mem_cons_self _ _) hp
        rw [if_pos hp, min_eq_left (le_of_lt this)]
      · rw [if_neg hp]
    have hf2 : (zStore st h.1 h.2.1 h.2.2).frameData[p]? = some b := by
      rw [hf1]
      by_cases hp : h.1 = p
      · have := hall h (List.mem_cons_self _ _) hp
        rw [if_neg (fun hc => absurd hc.2 (not_le.mpr this))]
      · rw [if_neg (fun hc => hp hc.1)]
    exact ih _ d b hz2 hf2 (fun h2 hin hp => hall h2 (List.mem_cons_of_mem _ hin) hp)

theorem clearBuffers_zBuffer_at (p : Nat) (hp : p < SCREEN_WIDTH * SCREEN_HEIGHT) :
    (clearBuffers : FrameBuffers F).zBuffer[p]? = some 1000 := by
  simp [clearBuffers, List.getElem?_replicate, hp]

theorem clearBuffers_frameData_at (p : Nat) (hp : p < SCREEN_WIDTH * SCREEN_HEIGHT) :
    (clearBuffers : FrameBuffers F).frameData[p]? = some 0 := by
  simp [clearBuffers, List.getElem?_replicate, hp]

theorem clamp01_range (t : F) : 0 ≤ clamp01 t ∧ clamp01 t ≤ 1 := by
  unfold clamp01
  dsimp only
  by_cases h0 : t < 0
  · have h10 : ¬ (1 : F) < 0 := not_lt.mpr zero_le_one
    simp [h0, h10]
  · by_cases h1 : t > 1
    · simp [h0, h1]
    · simp [h0, h1, not_lt.mp h0, not_lt.mp h1]

theorem shade_range (M : Libm F) (cosPhi sinPhi : F) (normal : vec3 F → Int → vec3 F)
    (coordsObj coordsTrans : vec3 F) (iSurf : Int) :
    0 ≤ shade M cosPhi sinPhi normal coordsObj coordsTrans iSurf ∧
    shade M cosPhi sinPhi normal coordsObj coordsTrans iSurf ≤ 1 :=
  clamp01_range _

end ZBufferFacts

/-- C1 (as stated, refuted): two samples on pixel 0 with the same depth 5; the pixel
ends with the brightness 0.7 of the later sample, not the 0.3 of the first one. -/
theorem depth_tie_first_sample_replaced :
    (storeAll (clearBuffers : FrameBuffers ℚ) [(0, 5, 3 / 10), (0, 5, 7 / 10)]).frameData[0]?
      = some (7 / 10) := by
  have hp : 0 < SCREEN_WIDTH * SCREEN_HEIGHT := by decide
  have z0 := clearBuffers_zBuffer_at (F := ℚ) 0 hp
  have f0 := clearBuffers_frameData_at (F := ℚ) 0 hp
  have z1 := zStore_zBuffer_at _ 0 0 (5 : ℚ) (3 / 10) _ z0
  have f1 := zStore_frameData_at _ 0 0 (5 : ℚ) (3 / 10) _ _ z0 f0
  have f2 := zStore_frameData_at _ 0 0 (5 : ℚ) (7 / 10) _ _ z1 f1
  rw [storeAll_cons, storeAll_cons]
  dsimp only [storeAll, List.foldl]
  rw [f2]
  norm_num

/-- C1 (amended): a sample whose depth equals the stored depth does replace it.  If a
sample `(p, d, b)` comes after samples that are nowhere nearer on `p` (depth `≥ d`,
ties included) and before samples that are strictly farther on `p`, the pixel ends
with depth `d` and with the brightness `b` of that sample: among the samples of
minimal depth the last one encountered wins. -/
theorem depth_tie_last_sample_wins {F : Type} [LinearOrderedField F]
    (pre post : List (Nat × F × F)) (p : Nat) (d b : F)
    (hp : p < SCREEN_WIDTH * SCREEN_HEIGHT) (hd : d ≤ 1000)
    (hpre : ∀ h ∈ pre, h.1 = p → d ≤ h.2.1)
    (hpost : ∀ h ∈ post, h.1 = p → d < h.2.1) :
    (storeAll clearBuffers (pre ++ (p, d, b) :: post)).frameData[p]? = some b ∧
    (storeAll clearBuffers (pre ++ (p, d, b) :: post)).zBuffer[p]? = some d := by
  rw [storeAll_append, storeAll_cons]
  obtain ⟨z, hz, _, _, hatt⟩ := storeAll_depth p pre (clearBuffers : FrameBuffers F) 1000
    (clearBuffers_zBuffer_at p hp)
  have hdz : d ≤ z := by
    rcases hatt with rfl | ⟨h, hin, hhp, rfl⟩
    · exact hd
    · exact hpre h hin hhp
  have hlen := (storeAll_lengths pre (clearBuffers : FrameBuffers F)).1
  have hflt : p < (storeAll (clearBuffers : FrameBuffers F) pre).frameData.length := by
    rw [hlen]; simpa [clearBuffers] using hp
  have hf := List.getElem?_eq_getElem hflt
  have hz1 := zStore_zBuffer_at _ p p d b z hz
  have hf1 := zStore_frameData_at _ p p d b z _ hz hf
  simp only [true_and, if_true, hdz, min_eq_right hdz] at hz1 hf1
  obtain ⟨h1, h2⟩ := storeAll_frozen p post _ d b hz1 hf1 hpost
  exact ⟨h2, h1⟩

/-- Witness of C1: three samples on pixel 0, of depths 5, 5 and 8; the second one
wins. -/
theorem depth_tie_last_sample_wins_witness :
    (0 < SCREEN_WIDTH * SCREEN_HEIGHT) ∧ ((5 : ℚ) ≤ 1000) ∧
    (∀ h ∈ [((0 : Nat), (5 : ℚ), (3 / 10 : ℚ))], h.1 = 0 → (5 : ℚ) ≤ h.2.1) ∧
    (∀ h ∈ [((0 : Nat), (8 : ℚ), (1 / 2 : ℚ))], h.1 = 0 → (5 : ℚ) < h.2.1) ∧
    ((storeAll clearBuffers
          ([(0, 5, 3 / 10)] ++ (0, (5 : ℚ), 7 / 10) :: [(0, 8, 1 / 2)])).frameData[0]?
        = some (7 / 10) ∧
      (storeAll clearBuffers
          ([(0, 5, 3 / 10)] ++ (0, (5 : ℚ), 7 / 10) :: [(0, 8, 1 / 2)])).zBuffer[0]?
        = some 5) :=
  ⟨by decide, by norm_num, by simp, by simp; norm_num,
    depth_tie_last_sample_wins [(0, 5, 3 / 10)] [(0, 8, 1 / 2)] 0 5 (7 / 10) (by decide)
      (by norm_num) (by simp) (by simp; norm_num)⟩

/-- C2: fold the z-buffer update over in-bounds samples of depth at most 1000.  A pixel
hit at least once ends with the minimum depth among the samples that hit it (a depth
attained by one of them and not larger than any of them); a pixel never hit still
holds the sentinel 1000. -/
theorem depth_buffer_minimum {F : Type} [LinearOrderedField F]
    (hits : List (Nat × F × F))
    (_hin : ∀ h ∈ hits, h.1 < SCREEN_WIDTH * SCREEN_HEIGHT)
    (hle : ∀ h ∈ hits, h.2.1 ≤ 1000)
    (p : Nat) (hp : p < SCREEN_WIDTH * SCREEN_HEIGHT) :
    ((∃ h ∈ hits, h.1 = p) →
      ∃ h ∈ hits, h.1 = p ∧ (storeAll clearBuffers hits).zBuffer[p]? = some h.2.1 ∧
        ∀ h2 ∈ hits, h2.1 = p → h.2.1 ≤ h2.2.1) ∧
    ((∀ h ∈ hits, h.1 ≠ p) → (storeAll clearBuffers hits).zBuffer[p]? = some 1000) ∧
    (storeAll clearBuffers hits).zBuffer.length = SCREEN_WIDTH * SCREEN_HEIGHT := by
  obtain ⟨z, hz, _, hall, hatt⟩ := storeAll_depth p hits (clearBuffers : FrameBuffers F) 1000
    (clearBuffers_zBuffer_at p hp)
  refine ⟨?_, ?_, ?_⟩
  · rintro ⟨h0, h0in, h0p⟩
    rcases hatt with heq | ⟨h, hmem, hhp, hd⟩
    · have h1 : z ≤ h0.2.1 := hall h0 h0in h0p
      have h2 : h0.2.1 ≤ 1000 := hle h0 h0in
      have h3 : h0.2.1 = z := le_antisymm (by rw [heq]; exact h2) h1
      exact ⟨h0, h0in, h0p, by rw [hz, h3], fun h2 hm hq => by rw [h3]; exact hall h2 hm hq⟩
    · exact ⟨h, hmem, hhp, by rw [hz, hd], fun h2 hm hq => by rw [hd]; exact hall h2 hm hq⟩
  · intro hnone
    rcases hatt with heq | ⟨h, hmem, hhp, _⟩
    · rw [hz, heq]
    · exact absurd hhp (hnone h hmem)
  · rw [(storeAll_lengths hits _).2]
    simp [clearBuffers]

/-- Witness of C2: samples of depths 7 and 5 on pixel 3 and one sample on pixel 9. -/
theorem depth_buffer_minimum_witness :
    (∀ h ∈ [((3 : Nat), (7 : ℚ), (1 / 2 : ℚ)), (3, 5, 1 / 4), (9, 6, 1)],
      h.1 < SCREEN_WIDTH * SCREEN_HEIGHT) ∧
    (∀ h ∈ [((3 : Nat), (7 : ℚ), (1 / 2 : ℚ)), (3, 5, 1 / 4), (9, 6, 1)],
      h.2.1 ≤ 1000) ∧
    (3 < SCREEN_WIDTH * SCREEN_HEIGHT) ∧
    (((∃ h ∈ [((3 : Nat), (7 : ℚ), (1 / 2 : ℚ)), (3, 5, 1 / 4), (9, 6, 1)], h.1 = 3) →
      ∃ h ∈ [((3 : Nat), (7 : ℚ), (1 / 2 : ℚ)), (3, 5, 1 / 4), (9, 6, 1)], h.1 = 3 ∧
        (storeAll clearBuffers [((3 : Nat), (7 : ℚ), (1 / 2 : ℚ)), (3, 5, 1 / 4),
          (9, 6, 1)]).zBuffer[3]? = some h.2.1 ∧
        ∀ h2 ∈ [((3 : Nat), (7 : ℚ), (1 / 2 : ℚ)), (3, 5, 1 / 4), (9, 6, 1)],
          h2.1 = 3 → h.2.1 ≤ h2.2.1) ∧
    ((∀ h ∈ [((3 : Nat), (7 : ℚ), (1 / 2 : ℚ)), (3, 5, 1 / 4), (9, 6, 1)], h.1 ≠ 3) →
      (storeAll clearBuffers [((3 : Nat), (7 : ℚ), (1 / 2 : ℚ)), (3, 5, 1 / 4),
        (9, 6, 1)]).zBuffer[3]? = some 1000) ∧
    (storeAll clearBuffers [((3 : Nat), (7 : ℚ), (1 / 2 : ℚ)), (3, 5, 1 / 4),
      (9, 6, 1)]).zBuffer.length = SCREEN_WIDTH * SCREEN_HEIGHT) :=
  ⟨by simp [SCREEN_WIDTH, SCREEN_HEIGHT], by simp; norm_num, by decide,
    depth_buffer_minimum _ (by simp [SCREEN_WIDTH, SCREEN_HEIGHT]) (by simp; norm_num) 3
      (by decide)⟩

/-! ## The sweep loops -/

section SweepFacts

variable {F : Type} [LinearOrderedField F]

/-- Once `v + k * delta` has reached 1, `k` units of fuel are all the loop uses: more
fuel yields the same values. -/
theorem floatLoop_fuel_enough (delta : F) (k n : Nat) :
    ∀ v : F, 1 ≤ v + k * delta → floatLoop delta (k + n) v = floatLoop delta k v := by
  induction k with
  | zero =>
    intro v hv
    have hv1 : ¬ v < 1 := by simpa using hv
    cases n with
    | zero => rfl
    | succ n => simp [floatLoop, hv1]
  | succ k ih =>
    intro v hv
    have e : k + 1 + n = (k + n) + 1 := by omega
    rw [e]
    simp only [floatLoop]
    by_cases hlt : v < 1
    · rw [if_pos hlt, if_pos hlt, ih (v + delta) (by push_cast at hv; linarith)]
    · rw [if_neg hlt, if_neg hlt]

/-- The loops of lines 125 and 126 end by themselves: in exact arithmetic 2000
iterations from -1 in steps of 0.001 reach 1, so the fuel 2000 of `sweepSamples` is
never what stops them. -/
theorem floatLoop_sweep_complete (n : Nat) :
    floatLoop (V_DELTA : F) (2000 + n) (-1) = floatLoop (V_DELTA : F) 2000 (-1) ∧
    floatLoop (U_DELTA : F) (2000 + n) (-1) = floatLoop (U_DELTA : F) 2000 (-1) := by
  constructor
  · exact floatLoop_fuel_enough _ 2000 n (-1)
      (by unfold V_DELTA; norm_num)
  · exact floatLoop_fuel_enough _ 2000 n (-1)
      (by unfold U_DELTA; norm_num)

end SweepFacts

/-! ## The rasterizer as a fold of the z-buffer update -/

section RasterFacts

variable {F : Type} [LinearOrderedField F] [FloorRing F]

/-- One loop iteration either discards the sample or performs the z-buffer update with
the pixel index, depth and brightness given by `sampleHit`. -/
theorem sampleStep_eq (M : Libm F) (cosPhi sinPhi : F) (uv : F → F → Int → vec3 F)
    (normal : vec3 F → Int → vec3 F) (st : FrameBuffers F) (s : Int × F × F) :
    sampleStep M cosPhi sinPhi uv normal st s =
      match sampleHit M cosPhi sinPhi uv normal s with
      | none => st
      | some h => zStore st h.1 h.2.1 h.2.2 := by
  unfold sampleStep sampleHit
  dsimp only
  split <;> rfl

theorem foldl_sampleStep_eq (M : Libm F) (cosPhi sinPhi : F) (uv : F → F → Int → vec3 F)
    (normal : vec3 F → Int → vec3 F) (samples : List (Int × F × F)) :
    ∀ st : FrameBuffers F,
      samples.foldl (sampleStep M cosPhi sinPhi uv normal) st =
        storeAll st (samples.filterMap (sampleHit M cosPhi sinPhi uv normal)) := by
  induction samples with
  | nil => intro st; rfl
  | cons s t ih =>
    intro st
    rw [List.foldl_cons, ih, sampleStep_eq, List.filterMap_cons]
    cases sampleHit M cosPhi sinPhi uv normal s with
    | none => rfl
    | some h => rfl

/-- The frame generator is the z-buffer fold over the samples that survive the
bounds test of line 141. -/
theorem generateFrameOn_eq_storeAll (M : Libm F) (phi : F) (uv : F → F → Int → vec3 F)
    (normal : vec3 F → Int → vec3 F) (samples : List (Int × F × F)) :
    generateFrameOn M phi uv normal samples =
      storeAll clearBuffers
        (samples.filterMap (sampleHit M (M.cosf phi) (M.sinf phi) uv normal)) :=
  foldl_sampleStep_eq M _ _ uv normal samples clearBuffers

/-- Every sample that survives the bounds test has its pixel index inside the buffers. -/
theorem sampleHit_inBounds (M : Libm F) (cosPhi sinPhi : F) (uv : F → F → Int → vec3 F)
    (normal : vec3 F → Int → vec3 F) (s : Int × F × F) (h : Nat × F × F)
    (hs : sampleHit M cosPhi sinPhi uv normal s = some h) :
    h.1 < SCREEN_WIDTH * SCREEN_HEIGHT := by
  unfold sampleHit at hs
  dsimp only at hs
  split at hs
  · exact absurd hs (by simp)
  · rename_i hb
    simp only [not_or, not_lt, ge_iff_le, not_le] at hb
    obtain ⟨hx0, hx1, hy0, hy1⟩ := hb
    have e := Option.some.inj hs
    rw [← e]
    simp only [get2DIndex, SCREEN_WIDTH, SCREEN_HEIGHT] at hx1 hy1 ⊢
    push_cast at hx1 hy1 ⊢
    omega

/-- Every entry of the brightness buffer after one more sample is an old entry or a
clamped light-curve value. -/
theorem sampleStep_frameData_mem (M : Libm F) (cosPhi sinPhi : F)
    (uv : F → F → Int → vec3 F) (normal : vec3 F → Int → vec3 F) (st : FrameBuffers F)
    (s : Int × F × F) (x : F)
    (hx : x ∈ (sampleStep M cosPhi sinPhi uv normal st s).frameData) :
    x ∈ st.frameData ∨ ∃ t, x = clamp01 (lightCurve t) := by
  unfold sampleStep at hx
  dsimp only at hx
  split at hx
  · exact Or.inl hx
  · unfold zStore at hx
    split at hx
    · exact Or.inl hx
    · rcases List.mem_or_eq_of_mem_set hx with h | h
      · exact Or.inl h
      · exact Or.inr ⟨_, h⟩

theorem foldl_sampleStep_frameData_mem (M : Libm F) (cosPhi sinPhi : F)
    (uv : F → F → Int → vec3 F) (normal : vec3 F → Int → vec3 F)
    (samples : List (Int × F × F)) :
    ∀ (st : FrameBuffers F) (x : F),
      x ∈ (samples.foldl (sampleStep M cosPhi sinPhi uv normal) st).frameData →
      x ∈ st.frameData ∨ ∃ t, x = clamp01 (lightCurve t) := by
  induction samples with
  | nil => intro st x hx; exact Or.inl hx
  | cons s t ih =>
    intro st x hx
    rw [List.foldl_cons] at hx
    rcases ih _ x hx with h | h
    · exact sampleStep_frameData_mem M cosPhi sinPhi uv normal st s x h
    · exact Or.inr h

end RasterFacts

/-- C3: for every library, rotation angle, surface and normal function and every
sample sequence, the brightness buffer produced by `generateFrame` has 4096 entries,
each of them either 0 (never written) or a clamped light-curve value, and each of
them in `[0, 1]`. -/
theorem brightness_range {F : Type} [LinearOrderedField F] [FloorRing F] (M : Libm F)
    (phi : F) (uv : F → F → Int → vec3 F) (normal : vec3 F → Int → vec3 F)
    (samples : List (Int × F × F)) (i : Nat) :
    (generateFrameOn M phi uv normal samples).frameData.length
      = SCREEN_WIDTH * SCREEN_HEIGHT ∧
    ((generateFrameOn M phi uv normal samples).frameData.getD i 0 = 0 ∨
      ∃ t, (generateFrameOn M phi uv normal samples).frameData.getD i 0
        = clamp01 (lightCurve t)) ∧
    0 ≤ (generateFrameOn M phi uv normal samples).frameData.getD i 0 ∧
    (generateFrameOn M phi uv normal samples).frameData.getD i 0 ≤ 1 := by
  have hlen : (generateFrameOn M phi uv normal samples).frameData.length
      = SCREEN_WIDTH * SCREEN_HEIGHT := by
    rw [generateFrameOn_eq_storeAll, (storeAll_lengths _ _).1]
    simp [clearBuffers]
  have key : (generateFrameOn M phi uv normal samples).frameData.getD i 0 = 0 ∨
      ∃ t, (generateFrameOn M phi uv normal samples).frameData.getD i 0
        = clamp01 (lightCurve t) := by
    by_cases hi : i < (generateFrameOn M phi uv normal samples).frameData.length
    · have hmem : (generateFrameOn M phi uv normal samples).frameData.getD i 0 ∈
          (generateFrameOn M phi uv normal samples).frameData := by
        rw [List.getD_eq_getElem _ _ hi]
        exact List.getElem_mem hi
      rcases foldl_sampleStep_frameData_mem M _ _ uv normal samples clearBuffers _ hmem
        with h | h
      · left
        simp only [clearBuffers] at h
        exact (List.mem_replicate.mp h).2
      · exact Or.inr h
    · left
      rw [List.getD_eq_getElem?_getD, List.getElem?_eq_none (not_lt.mp hi)]
      rfl
  refine ⟨hlen, key, ?_, ?_⟩
  · rcases key with h | ⟨t, h⟩
    · rw [h]
    · rw [h]; exact (clamp01_range _).1
  · rcases key with h | ⟨t, h⟩
    · rw [h]; exact zero_le_one
    · rw [h]; exact (clamp01_range _).2

/-! ## Byte packing -/

theorem packBit_testBit (buffer : List Char) (xBlock y byte bit b : Nat) :
    (packBit buffer xBlock y byte bit).testBit b =
      (byte.testBit b || (decide (bit = b) && bitIsSet buffer xBlock y bit)) := by
  by_cases hs : bitIsSet buffer xBlock y bit = true
  · obtain ⟨hg, hc⟩ := of_decide_eq_true hs
    unfold packBit
    dsimp only
    rw [if_neg hg, if_pos hc, hs, Nat.testBit_or, Nat.one_shiftLeft, Nat.testBit_two_pow]
    simp
  · have hf : bitIsSet buffer xBlock y bit = false := by simpa using hs
    have hbyte : packBit buffer xBlock y byte bit = byte := by
      unfold packBit
      dsimp only
      by_cases hg : xBlock * 8 + bit ≥ SCREEN_WIDTH ∨ y ≥ SCREEN_HEIGHT
      · rw [if_pos hg]
      · rw [if_neg hg]
        by_cases hc : (buffer.getD (get2DIndex (xBlock * 8 + bit : Nat) y).toNat ' ') = '#'
        · exact absurd (decide_eq_true ⟨hg, hc⟩) hs
        · rw [if_neg hc]
    rw [hbyte, hf]
    simp

theorem foldl_packBit_testBit (buffer : List Char) (xBlock y b : Nat) (bits : List Nat) :
    ∀ acc : Nat, (bits.foldl (packBit buffer xBlock y) acc).testBit b =
      (acc.testBit b || (decide (b ∈ bits) && bitIsSet buffer xBlock y b)) := by
  induction bits with
  | nil => intro acc; simp
  | cons bit t ih =>
    intro acc
    rw [List.foldl_cons, ih, packBit_testBit]
    by_cases hb : bit = b
    · subst hb
      cases acc.testBit bit <;> cases bitIsSet buffer xBlock y bit <;> simp
    · have hb2 : ¬ b = bit := fun h => hb h.symm
      simp [hb, hb2, List.mem_cons]

/-- Bit `b < 8` of the packed byte is set exactly when iteration `b` sets it. -/
theorem packByte_testBit (buffer : List Char) (xBlock y b : Nat) (hb : b < 8) :
    (packByte buffer xBlock y).testBit b = bitIsSet buffer xBlock y b := by
  unfold packByte
  rw [foldl_packBit_testBit]
  simp [List.mem_range, hb]

/-- The blocks past the screen width produce the byte 0. -/
theorem packByte_offscreen (buffer : List Char) (xBlock y : Nat) (hx : 4 ≤ xBlock) :
    packByte buffer xBlock y = 0 := by
  apply Nat.eq_of_testBit_eq
  intro b
  unfold packByte
  rw [foldl_packBit_testBit]
  have : bitIsSet buffer xBlock y b = false := by
    unfold bitIsSet
    have : xBlock * 8 + b ≥ SCREEN_WIDTH := by simp only [SCREEN_WIDTH]; omega
    simp [this]
  simp [this]

/-- Indexing the concatenation of lists that all have length `m`. -/
theorem getElem?_flatten_uniform {A : Type} (m : Nat) (Ls : List (List A)) :
    ∀ (k y : Nat), (∀ l ∈ Ls, l.length = m) → y < m →
      Ls.flatten[k * m + y]? = (Ls[k]?).bind (fun l => l[y]?) := by
  induction Ls with
  | nil => intro k y _ _; simp
  | cons l t ih =>
    intro k y hall hy
    have hl : l.length = m := hall l (List.mem_cons_self _ _)
    rw [List.flatten_cons]
    cases k with
    | zero =>
      rw [List.getElem?_append_left (by omega)]
      simp
    | succ k =>
      have hge : l.length ≤ (k + 1) * m + y := by
        rw [hl, Nat.succ_mul]; omega
      rw [List.getElem?_append_right hge]
      have e : (k + 1) * m + y - l.length = k * m + y := by
        rw [hl, Nat.succ_mul]; omega
      rw [e, ih k y (fun l2 h2 => hall l2 (List.mem_cons_of_mem _ h2)) hy]
      simp

theorem printOLEDHexLines_length (buffer : List Char) :
    (printOLEDHexLines buffer).length = 8 := by
  simp [printOLEDHexLines]

theorem printOLEDHexLines_row_length (buffer : List Char) :
    ∀ l ∈ printOLEDHexLines buffer, l.length = 128 := by
  intro l hl
  simp only [printOLEDHexLines, List.mem_map] at hl
  obtain ⟨k, _, rfl⟩ := hl
  simp

/-- The byte printed at position `k * 128 + y`, for a block `k < 8` and a row
`y < 128`. -/
theorem printOLEDHex_at (buffer : List Char) (k y : Nat) (hk : k < 8) (hy : y < 128) :
    (printOLEDHex buffer)[k * 128 + y]? = some (packByte buffer k y) := by
  unfold printOLEDHex
  rw [getElem?_flatten_uniform 128 _ k y (printOLEDHexLines_row_length buffer) hy]
  simp [printOLEDHexLines, List.getElem?_range, hk, hy]

/-- C7: for every buffer and every in-bounds pixel `(x, y)`, the byte printed at
position `(x div 8) * 128 + y` exists and has bit `x mod 8` set exactly when the cell
`buffer[get2DIndex(x, y)]` is `#`; so the decoding "bit b of byte = pixel" recovers at
`(x, y)` an on pixel exactly where the buffer has one. -/
theorem packing_layout (buffer : List Char) (x y : Nat)
    (hx : x < SCREEN_WIDTH) (hy : y < SCREEN_HEIGHT) :
    ∃ byte, (printOLEDHex buffer)[(x / 8) * 128 + y]? = some byte ∧
      (byte.testBit (x % 8) = true ↔ buffer.getD (get2DIndex x y).toNat ' ' = '#') ∧
      (unpackOLED (printOLEDHex buffer)).getD (get2DIndex x y).toNat ' ' =
        (if buffer.getD (get2DIndex x y).toNat ' ' = '#' then '#' else ' ') := by
  simp only [SCREEN_WIDTH, SCREEN_HEIGHT] at hx hy
  have hat := printOLEDHex_at buffer (x / 8) y (by omega) hy
  have hbit : (packByte buffer (x / 8) y).testBit (x % 8) = true ↔
      buffer.getD (get2DIndex x y).toNat ' ' = '#' := by
    rw [packByte_testBit buffer (x / 8) y (x % 8) (by omega)]
    unfold bitIsSet
    have e : x / 8 * 8 + x % 8 = x := by omega
    rw [e]
    have hg : ¬ (x ≥ SCREEN_WIDTH ∨ y ≥ SCREEN_HEIGHT) := by
      simp only [SCREEN_WIDTH, SCREEN_HEIGHT]; omega
    simp [hg]
  refine ⟨packByte buffer (x / 8) y, hat, hbit, ?_⟩
  have hidx : (get2DIndex x y).toNat = y * 32 + x := by
    simp only [get2DIndex, SCREEN_WIDTH]
    omega
  have hlt : y * 32 + x < SCREEN_WIDTH * SCREEN_HEIGHT := by
    simp only [SCREEN_WIDTH, SCREEN_HEIGHT]; omega
  have hx2 : (y * 32 + x) % SCREEN_WIDTH = x := by
    simp only [SCREEN_WIDTH]; omega
  have hy2 : (y * 32 + x) / SCREEN_WIDTH = y := by
    simp only [SCREEN_WIDTH]; omega
  have hun : (unpackOLED (printOLEDHex buffer)).getD (y * 32 + x) ' ' =
      (if (packByte buffer (x / 8) y).testBit (x % 8) then '#' else ' ') := by
    unfold unpackOLED
    rw [List.getD_eq_getElem?_getD, List.getElem?_map, List.getElem?_range hlt]
    simp only [Option.map_some', Option.getD_some, hx2, hy2]
    rw [List.getD_eq_getElem?_getD, hat]
    rfl
  rw [hidx] at hbit ⊢
  rw [hun]
  by_cases hc : buffer.getD (y * 32 + x) ' ' = '#'
  · rw [if_pos hc, if_pos (hbit.mpr hc)]
  · rw [if_neg hc]
    have : ¬ (packByte buffer (x / 8) y).testBit (x % 8) = true := fun h => hc (hbit.mp h)
    rw [if_neg this]

/-- Witness of C7: the buffer whose only lit cell is (9, 2), read back at (9, 2). -/
theorem packing_layout_witness :
    (9 < SCREEN_WIDTH) ∧ (2 < SCREEN_HEIGHT) ∧
    ∃ byte, (printOLEDHex ((List.replicate 4096 ' ').set 73 '#'))[(9 / 8) * 128 + 2]?
        = some byte ∧
      (byte.testBit (9 % 8) = true ↔
        ((List.replicate 4096 ' ').set 73 '#').getD (get2DIndex (9 : Nat) (2 : Nat)).toNat ' '
          = '#') ∧
      (unpackOLED (printOLEDHex ((List.replicate 4096 ' ').set 73 '#'))).getD
          (get2DIndex (9 : Nat) (2 : Nat)).toNat ' ' =
        (if ((List.replicate 4096 ' ').set 73 '#').getD
          (get2DIndex (9 : Nat) (2 : Nat)).toNat ' ' = '#' then '#' else ' ') :=
  ⟨by decide, by decide, packing_layout _ 9 2 (by decide) (by decide)⟩

/-- C8 (the code at any buffer): `printOLEDHex` prints 8 lines of 128 bytes, 1024
bytes in all, not 4 lines and 512 bytes; the last four lines (bytes 512 to 1023) are
all zero, since the columns 32 to 63 they stand for are skipped at line 219. -/
theorem packed_size_is_1024 (buffer : List Char) :
    (printOLEDHexLines buffer).map List.length = List.replicate 8 128 ∧
    (printOLEDHex buffer).length = 1024 ∧
    (printOLEDHexLines buffer).drop 4 = List.replicate 4 (List.replicate 128 0) ∧
    (printOLEDHex buffer).drop 512 = List.replicate 512 0 := by
  have hrows : (printOLEDHexLines buffer).map List.length = List.replicate 8 128 := by
    simp [printOLEDHexLines, List.map_map, Function.comp_def]
  have hlen : (printOLEDHex buffer).length = 1024 := by
    unfold printOLEDHex
    rw [List.length_flatten, hrows]
    simp
  have hzero : ∀ k, 4 ≤ k → (List.range 128).map (fun y => packByte buffer k y)
      = List.replicate 128 0 := by
    intro k hk
    rw [List.eq_replicate_iff]
    refine ⟨by simp, ?_⟩
    intro b hb
    simp only [List.mem_map] at hb
    obtain ⟨y, _, rfl⟩ := hb
    exact packByte_offscreen buffer k y hk
  have hsplit : printOLEDHexLines buffer =
      (List.range 4).map (fun k => (List.range 128).map fun y => packByte buffer k y) ++
        List.replicate 4 (List.replicate 128 0) := by
    have e8 : List.range 8 = List.range 4 ++ [4, 5, 6, 7] := by decide
    unfold printOLEDHexLines
    rw [e8, List.map_append]
    simp only [List.map_cons, List.map_nil]
    rw [hzero 4 (by omega), hzero 5 (by omega), hzero 6 (by omega), hzero 7 (by omega)]
    rfl
  have hdrop : (printOLEDHexLines buffer).drop 4
      = List.replicate 4 (List.replicate 128 0) := by
    rw [hsplit]
    rw [List.drop_append_of_le_length (by simp)]
    simp
  refine ⟨hrows, hlen, hdrop, ?_⟩
  unfold printOLEDHex
  rw [hsplit, List.flatten_append]
  have hl : ((List.range 4).map
      (fun k => (List.range 128).map fun y => packByte buffer k y)).flatten.length = 512 := by
    rw [List.length_flatten]
    simp [List.map_map, Function.comp_def]
  rw [List.drop_append_of_le_length (by omega)]
  rw [List.drop_of_length_le (by omega)]
  simp [List.eq_replicate_iff]

/-! ## Shading -/

/-- C9 (as stated, refuted): take the sample at the object-space origin and the
rotation angle 0.  It passes the bounds test (pixel (16, 64), index 2064, depth 6), and
the light direction the code uses for it is not the normalized vector from the
rotated, untranslated point to the light: the x components are `-6 / sqrt 41.44` and
`0`. -/
theorem light_direction_not_from_untranslated_point :
    (sampleHit
        (Libm.mk Real.sqrt Real.cos Real.sin (fun y x => Complex.arg ⟨x, y⟩) Real.pi)
        (Real.cos 0) (Real.sin 0) (fun _ _ _ => ⟨0, 0, 0⟩) (fun _ _ => ⟨1, 0, 0⟩)
        (0, 0, 0)).map (fun h => (h.1, h.2.1)) = some (2064, 6) ∧
    lightDir (Libm.mk Real.sqrt Real.cos Real.sin (fun y x => Complex.arg ⟨x, y⟩) Real.pi)
        (translateK2 (rotateZ (Real.cos 0) (Real.sin 0) (⟨0, 0, 0⟩ : vec3 ℝ))) ≠
      normalize (Libm.mk Real.sqrt Real.cos Real.sin (fun y x => Complex.arg ⟨x, y⟩) Real.pi)
        ⟨(L : vec3 ℝ).x - (rotateZ (Real.cos 0) (Real.sin 0) (⟨0, 0, 0⟩ : vec3 ℝ)).x,
         (L : vec3 ℝ).y - (rotateZ (Real.cos 0) (Real.sin 0) (⟨0, 0, 0⟩ : vec3 ℝ)).y,
         (L : vec3 ℝ).z - (rotateZ (Real.cos 0) (Real.sin 0) (⟨0, 0, 0⟩ : vec3 ℝ)).z⟩ :=
    by
  constructor
  · have hx : pixelX (project (translateK2 (rotateZ (Real.cos 0) (Real.sin 0)
        (⟨0, 0, 0⟩ : vec3 ℝ)))) = 16 := by
      simp only [pixelX, project, translateK2, rotateZ, K1, K2, SCREEN_WIDTH, truncToInt]
      norm_num
    have hy : pixelY (project (translateK2 (rotateZ (Real.cos 0) (Real.sin 0)
        (⟨0, 0, 0⟩ : vec3 ℝ)))) = 64 := by
      simp only [pixelY, project, translateK2, rotateZ, K1, K2, SCREEN_HEIGHT, truncToInt]
      norm_num
    simp only [sampleHit, hx, hy]
    norm_num [SCREEN_WIDTH, SCREEN_HEIGHT, get2DIndex, translateK2, rotateZ, K2]
    rfl
  · intro h
    have hx := congrArg vec3.x h
    simp only [lightDir, normalize, L, translateK2, rotateZ, K2, dot, Real.cos_zero,
      Real.sin_zero] at hx
    norm_num at hx

/-- C9 (amended): for every sample, the loop body either discards it at the bounds
test or performs the z-buffer update with depth `coordsRot.x + 6` and the brightness
`clamp01 (lightCurve (dot VL NR))`, where the light direction `VL` is the normalized
vector from the rotated and translated point `coordsTrans = coordsRot + (6, 0, 0)` to
the light position `L`. -/
theorem light_direction_from_translated_point {F : Type} [LinearOrderedField F]
    [FloorRing F] (M : Libm F) (cosPhi sinPhi : F) (uv : F → F → Int → vec3 F)
    (normal : vec3 F → Int → vec3 F) (st : FrameBuffers F) (s : Int × F × F) :
    lightDir M (translateK2 (rotateZ cosPhi sinPhi (uv s.2.2 s.2.1 s.1))) =
      normalize M
        ⟨L.x - ((rotateZ cosPhi sinPhi (uv s.2.2 s.2.1 s.1)).x + 6),
         L.y - (rotateZ cosPhi sinPhi (uv s.2.2 s.2.1 s.1)).y,
         L.z - (rotateZ cosPhi sinPhi (uv s.2.2 s.2.1 s.1)).z⟩ ∧
    sampleStep M cosPhi sinPhi uv normal st s =
      if pixelX (project (translateK2 (rotateZ cosPhi sinPhi (uv s.2.2 s.2.1 s.1)))) < 0 ∨
          pixelX (project (translateK2 (rotateZ cosPhi sinPhi (uv s.2.2 s.2.1 s.1))))
            ≥ (SCREEN_WIDTH : Int) ∨
          pixelY (project (translateK2 (rotateZ cosPhi sinPhi (uv s.2.2 s.2.1 s.1)))) < 0 ∨
          pixelY (project (translateK2 (rotateZ cosPhi sinPhi (uv s.2.2 s.2.1 s.1))))
            ≥ (SCREEN_HEIGHT : Int)
      then st
      else zStore st
        (get2DIndex
          (pixelX (project (translateK2 (rotateZ cosPhi sinPhi (uv s.2.2 s.2.1 s.1)))))
          (pixelY (project (translateK2 (rotateZ cosPhi sinPhi (uv s.2.2 s.2.1 s.1)))))).toNat
        ((rotateZ cosPhi sinPhi (uv s.2.2 s.2.1 s.1)).x + 6)
        (clamp01 (lightCurve (dot
          (normalize M
            ⟨L.x - ((rotateZ cosPhi sinPhi (uv s.2.2 s.2.1 s.1)).x + 6),
             L.y - (rotateZ cosPhi sinPhi (uv s.2.2 s.2.1 s.1)).y,
             L.z - (rotateZ cosPhi sinPhi (uv s.2.2 s.2.1 s.1)).z⟩)
          (rotateZ cosPhi sinPhi (normal (uv s.2.2 s.2.1 s.1) s.1))))) := by
  constructor
  · simp only [lightDir, translateK2, K2]
  · simp only [sampleStep, shade, lightDir, translateK2, K2]

/-! ## The torus normal -/

section TorusFacts

/-- On a torus point the angle `atan2(z, y)` has the cosine and sine of `π u`. -/
theorem torus_arg (u v : ℝ) :
    Real.cos (Complex.arg ⟨(1 + 1 / 2 * Real.cos (Real.pi * v)) * Real.cos (Real.pi * u),
        (1 + 1 / 2 * Real.cos (Real.pi * v)) * Real.sin (Real.pi * u)⟩)
      = Real.cos (Real.pi * u) ∧
    Real.sin (Complex.arg ⟨(1 + 1 / 2 * Real.cos (Real.pi * v)) * Real.cos (Real.pi * u),
        (1 + 1 / 2 * Real.cos (Real.pi * v)) * Real.sin (Real.pi * u)⟩)
      = Real.sin (Real.pi * u) := by
  set r : ℝ := 1 + 1 / 2 * Real.cos (Real.pi * v) with hr
  have hrpos : 0 < r := by
    have := Real.neg_one_le_cos (Real.pi * v)
    rw [hr]; linarith
  have habs : Complex.abs ⟨r * Real.cos (Real.pi * u), r * Real.sin (Real.pi * u)⟩ = r := by
    rw [Complex.abs_apply, Complex.normSq_mk]
    have e : r * Real.cos (Real.pi * u) * (r * Real.cos (Real.pi * u)) +
        r * Real.sin (Real.pi * u) * (r * Real.sin (Real.pi * u)) = r ^ 2 := by
      have := Real.sin_sq_add_cos_sq (Real.pi * u)
      nlinarith [this]
    rw [e, Real.sqrt_sq hrpos.le]
  have hne : (⟨r * Real.cos (Real.pi * u), r * Real.sin (Real.pi * u)⟩ : ℂ) ≠ 0 := by
    intro h0
    rw [h0, map_zero] at habs
    linarith
  constructor
  · rw [Complex.cos_arg hne, habs]
    field_simp
  · rw [Complex.sin_arg, habs]
    field_simp

/-- The torus normal in closed form: `(sin πv, cos πv cos πu, cos πv sin πu)`; the
vector normalized has length `r1 = 1/2`. -/
theorem torusNormal_closed_form (M : Libm ℝ) (hM : M.exact) (u v : ℝ) (i : Int) :
    torusNormal M (torusUV M u v i) i =
      ⟨Real.sin (Real.pi * v), Real.cos (Real.pi * v) * Real.cos (Real.pi * u),
        Real.cos (Real.pi * v) * Real.sin (Real.pi * u)⟩ ∧
    M.sqrtf (dot
      (⟨(torusUV M u v i).x - (torusCircleNearest M (torusUV M u v i)).x,
        (torusUV M u v i).y - (torusCircleNearest M (torusUV M u v i)).y,
        (torusUV M u v i).z - (torusCircleNearest M (torusUV M u v i)).z⟩ : vec3 ℝ)
      ⟨(torusUV M u v i).x - (torusCircleNearest M (torusUV M u v i)).x,
        (torusUV M u v i).y - (torusCircleNearest M (torusUV M u v i)).y,
        (torusUV M u v i).z - (torusCircleNearest M (torusUV M u v i)).z⟩) = 1 / 2 := by
  obtain ⟨hsqrt, hcos, hsin, hatan, hpi⟩ := hM
  obtain ⟨hc, hs⟩ := torus_arg u v
  have hdot : (1 / 2 * Real.sin (Real.pi * v)) * (1 / 2 * Real.sin (Real.pi * v)) +
      ((1 + 1 / 2 * Real.cos (Real.pi * v)) * Real.cos (Real.pi * u) - Real.cos (Real.pi * u)) *
        ((1 + 1 / 2 * Real.cos (Real.pi * v)) * Real.cos (Real.pi * u) - Real.cos (Real.pi * u)) +
      ((1 + 1 / 2 * Real.cos (Real.pi * v)) * Real.sin (Real.pi * u) - Real.sin (Real.pi * u)) *
        ((1 + 1 / 2 * Real.cos (Real.pi * v)) * Real.sin (Real.pi * u) - Real.sin (Real.pi * u))
      = (1 / 2) ^ 2 := by
    have h1 := Real.sin_sq_add_cos_sq (Real.pi * u)
    have h2 := Real.sin_sq_add_cos_sq (Real.pi * v)
    have e : ∀ a b c d : ℝ, a ^ 2 + b ^ 2 = 1 → c ^ 2 + d ^ 2 = 1 →
        (1 / 2 * c) * (1 / 2 * c) + ((1 + 1 / 2 * d) * b - b) * ((1 + 1 / 2 * d) * b - b) +
          ((1 + 1 / 2 * d) * a - a) * ((1 + 1 / 2 * d) * a - a) = (1 / 2) ^ 2 := by
      intro a b c d hab hcd
      have : (1 / 2 * c) * (1 / 2 * c) + ((1 + 1 / 2 * d) * b - b) * ((1 + 1 / 2 * d) * b - b) +
          ((1 + 1 / 2 * d) * a - a) * ((1 + 1 / 2 * d) * a - a)
          = 1 / 4 * (c ^ 2 + d ^ 2 * (a ^ 2 + b ^ 2)) := by ring
      rw [this, hab, mul_one, hcd]; norm_num
    exact e _ _ _ _ h1 h2
  have hhalf : Real.sqrt ((1 / 2 : ℝ) ^ 2) = 1 / 2 := Real.sqrt_sq (by norm_num)
  constructor
  · simp only [torusNormal, torusUV, normalize, dot, r0, r1, hsqrt, hcos, hsin, hatan, hpi,
      one_mul, hc, hs, hdot, hhalf]
    congr 1
    · field_simp
    · field_simp; ring
    · field_simp; ring
  · simp only [torusCircleNearest, torusUV, dot, r0, r1, hsqrt, hcos, hsin, hatan, hpi,
      one_mul, hc, hs, sub_zero, hdot, hhalf]

/-- The code normalizes `p - c`, the vector from the circle point `c` to `p`. -/
theorem torusNormal_eq_outward {F : Type} [LinearOrderedField F] (M : Libm F)
    (p : vec3 F) (i : Int) :
    torusNormal M p i = torusNormalOutward M p := by
  simp only [torusNormal, torusNormalOutward, torusCircleNearest, r0, one_mul, sub_zero]

/-- The normal of the specification is the opposite of the one the code returns. -/
theorem torusNormalSpec_eq_neg {F : Type} [LinearOrderedField F] (M : Libm F)
    (p : vec3 F) (i : Int) :
    torusNormalSpec M p =
      ⟨-(torusNormal M p i).x, -(torusNormal M p i).y, -(torusNormal M p i).z⟩ := by
  have hd : ∀ a b c : F, (0 - a) * (0 - a) + (b - p.y) * (b - p.y) + (c - p.z) * (c - p.z)
      = a * a + (p.y - b) * (p.y - b) + (p.z - c) * (p.z - c) := by
    intro a b c; ring
  simp only [torusNormalSpec, torusNormal, torusCircleNearest, normalize, dot, r0, one_mul, hd]
  congr 1
  · rw [zero_sub, neg_div]
  · rw [← neg_div, neg_sub]
  · rw [← neg_div, neg_sub]

end TorusFacts

/-- C10 (as stated, refuted): at `u = v = 0` the surface point is `(0, 3/2, 0)` and the
nearest circle point `(0, 1, 0)`; the code returns `(0, 1, 0)`, pointing away from the
circle, while the unit vector from the point to the circle is `(0, -1, 0)`. -/
theorem torusNormal_not_toward_circle :
    torusNormal
        (Libm.mk Real.sqrt Real.cos Real.sin (fun y x => Complex.arg ⟨x, y⟩) Real.pi)
        (torusUV
          (Libm.mk Real.sqrt Real.cos Real.sin (fun y x => Complex.arg ⟨x, y⟩) Real.pi)
          0 0 0) 0
      = ⟨0, 1, 0⟩ ∧
    torusNormalSpec
        (Libm.mk Real.sqrt Real.cos Real.sin (fun y x => Complex.arg ⟨x, y⟩) Real.pi)
        (torusUV
          (Libm.mk Real.sqrt Real.cos Real.sin (fun y x => Complex.arg ⟨x, y⟩) Real.pi)
          0 0 0)
      = ⟨0, -1, 0⟩ := by
  generalize hM :
    (Libm.mk Real.sqrt Real.cos Real.sin (fun y x => Complex.arg ⟨x, y⟩) Real.pi) = M
  have hex : M.exact := by rw [← hM]; exact ⟨rfl, rfl, rfl, rfl, rfl⟩
  have h1 : torusNormal M (torusUV M 0 0 0) 0 = ⟨0, 1, 0⟩ := by
    rw [(torusNormal_closed_form M hex 0 0 0).1]; simp
  refine ⟨h1, ?_⟩
  rw [torusNormalSpec_eq_neg _ _ 0, h1]
  simp

/-- C10 (amended): for every `u`, `v` and `i`, with `p = torusUV(u, v, i)` and `c` the
nearest point of the central circle, `torusNormal(p, i)` is the unit vector pointing
from `c` to `p` (outward), `(p - c) / |p - c|`: it is the opposite of the normalized
vector from `p` to `c`, it has length 1, and it equals
`(sin πv, cos πv cos πu, cos πv sin πu)`. -/
theorem torusNormal_from_circle_to_point (M : Libm ℝ) (hM : M.exact) (u v : ℝ) (i : Int) :
    torusNormal M (torusUV M u v i) i = torusNormalOutward M (torusUV M u v i) ∧
    torusNormalSpec M (torusUV M u v i) =
      ⟨-(torusNormal M (torusUV M u v i) i).x, -(torusNormal M (torusUV M u v i) i).y,
        -(torusNormal M (torusUV M u v i) i).z⟩ ∧
    dot (torusNormal M (torusUV M u v i) i) (torusNormal M (torusUV M u v i) i) = 1 ∧
    torusNormal M (torusUV M u v i) i =
      ⟨Real.sin (Real.pi * v), Real.cos (Real.pi * v) * Real.cos (Real.pi * u),
        Real.cos (Real.pi * v) * Real.sin (Real.pi * u)⟩ := by
  obtain ⟨hform, _⟩ := torusNormal_closed_form M hM u v i
  refine ⟨torusNormal_eq_outward M _ i, torusNormalSpec_eq_neg M _ i, ?_, hform⟩
  rw [hform]
  simp only [dot]
  have h1 := Real.sin_sq_add_cos_sq (Real.pi * u)
  have h2 := Real.sin_sq_add_cos_sq (Real.pi * v)
  have e : ∀ a b c d : ℝ, a ^ 2 + b ^ 2 = 1 → c ^ 2 + d ^ 2 = 1 →
      c * c + d * b * (d * b) + d * a * (d * a) = 1 := by
    intro a b c d hab hcd
    have : c * c + d * b * (d * b) + d * a * (d * a) = c ^ 2 + d ^ 2 * (a ^ 2 + b ^ 2) := by
      ring
    rw [this, hab, mul_one, hcd]
  exact e _ _ _ _ h1 h2

/-- Witness of C10 at `u = 1/2`, `v = 0`, with the exact library: the surface point is
`(0, 0, 3/2)` and the normal is `(0, 0, 1)`, pointing away from the circle point
`(0, 0, 1)`. -/
theorem torusNormal_from_circle_to_point_witness :
    Libm.exact
        (Libm.mk Real.sqrt Real.cos Real.sin (fun y x => Complex.arg ⟨x, y⟩) Real.pi) ∧
    torusNormal
        (Libm.mk Real.sqrt Real.cos Real.sin (fun y x => Complex.arg ⟨x, y⟩) Real.pi)
        (torusUV
          (Libm.mk Real.sqrt Real.cos Real.sin (fun y x => Complex.arg ⟨x, y⟩) Real.pi)
          (1 / 2) 0 0) 0
      = ⟨0, 0, 1⟩ := by
  refine ⟨⟨rfl, rfl, rfl, rfl, rfl⟩, ?_⟩
  rw [(torusNormal_from_circle_to_point _ ⟨rfl, rfl, rfl, rfl, rfl⟩ (1 / 2) 0 0).2.2.2]
  have e : Real.pi * (1 / 2) = Real.pi / 2 := by ring
  rw [e, Real.cos_pi_div_two, Real.sin_pi_div_two, mul_zero, Real.sin_zero, Real.cos_zero,
    mul_zero, mul_one]

/-! ## The light curve -/

/-- C12: for a cosine `c` in `[-1, 1]`: if `c > 0` the light curve is `0.3 + 0.7 c`, in
`[0.3, 1]`; if `c < 0` it is `0.1 - 0.4 c`, in `(0.1, 0.5]`; in every case the value is
at least 0.1 and at most 1, and the clamp to `[0, 1]` leaves it unchanged. -/
theorem lightCurve_ranges {F : Type} [LinearOrderedField F] (c : F)
    (hlo : -1 ≤ c) (hhi : c ≤ 1) :
    (0 < c → lightCurve c = 3 / 10 + 7 / 10 * c ∧
      3 / 10 ≤ lightCurve c ∧ lightCurve c ≤ 1) ∧
    (c < 0 → lightCurve c = 1 / 10 - 4 / 10 * c ∧
      1 / 10 < lightCurve c ∧ lightCurve c ≤ 5 / 10) ∧
    1 / 10 ≤ lightCurve c ∧ lightCurve c ≤ 1 ∧
    clamp01 (lightCurve c) = lightCurve c := by
  have hpos : 0 < c → lightCurve c = 3 / 10 + 7 / 10 * c := by
    intro h; unfold lightCurve; rw [if_pos h]
  have hneg : ¬ 0 < c → lightCurve c = 1 / 10 - 4 / 10 * c := by
    intro h; unfold lightCurve; rw [if_neg h]
  have hge : 1 / 10 ≤ lightCurve c := by
    by_cases h : 0 < c
    · rw [hpos h]; linarith
    · rw [hneg h]; linarith [not_lt.mp h]
  have hle : lightCurve c ≤ 1 := by
    by_cases h : 0 < c
    · rw [hpos h]; linarith
    · rw [hneg h]; linarith
  refine ⟨?_, ?_, hge, hle, ?_⟩
  · intro h
    refine ⟨hpos h, ?_, hle⟩
    rw [hpos h]; linarith
  · intro h
    have h2 : ¬ 0 < c := not_lt.mpr h.le
    refine ⟨hneg h2, ?_, ?_⟩
    · rw [hneg h2]; linarith
    · rw [hneg h2]; linarith
  · unfold clamp01
    dsimp only
    have h0 : ¬ lightCurve c < 0 := by
      have : (0 : F) < 1 / 10 := by norm_num
      exact not_lt.mpr (le_trans this.le hge)
    rw [if_neg h0, if_neg (not_lt.mpr hle)]

/-- Witness of C12 at the cosine `-1/2`, where the curve is `0.3`. -/
theorem lightCurve_ranges_witness :
    (-1 : ℚ) ≤ -1 / 2 ∧ (-1 / 2 : ℚ) ≤ 1 ∧
    ((0 < (-1 / 2 : ℚ) → lightCurve (-1 / 2 : ℚ) = 3 / 10 + 7 / 10 * (-1 / 2) ∧
      3 / 10 ≤ lightCurve (-1 / 2 : ℚ) ∧ lightCurve (-1 / 2 : ℚ) ≤ 1) ∧
    ((-1 / 2 : ℚ) < 0 → lightCurve (-1 / 2 : ℚ) = 1 / 10 - 4 / 10 * (-1 / 2) ∧
      1 / 10 < lightCurve (-1 / 2 : ℚ) ∧ lightCurve (-1 / 2 : ℚ) ≤ 5 / 10) ∧
    1 / 10 ≤ lightCurve (-1 / 2 : ℚ) ∧ lightCurve (-1 / 2 : ℚ) ≤ 1 ∧
    clamp01 (lightCurve (-1 / 2 : ℚ)) = lightCurve (-1 / 2 : ℚ)) :=
  ⟨by norm_num, by norm_num, lightCurve_ranges (-1 / 2) (by norm_num) (by norm_num)⟩

/-! ## Pixel mapping -/

section PixelFacts

variable {F : Type} [LinearOrderedField F] [FloorRing F]

/-- Truncation toward zero is non-negative exactly above -1. -/
theorem truncToInt_nonneg_iff (t : F) : 0 ≤ truncToInt t ↔ -1 < t := by
  unfold truncToInt
  by_cases h : 0 ≤ t
  · rw [if_pos h]
    constructor
    · intro _; linarith
    · intro _; exact Int.floor_nonneg.mpr h
  · rw [if_neg h]
    have e : (0 : Int) ≤ Int.ceil t ↔ (-1 : Int) < Int.ceil t := by omega
    rw [e, Int.lt_ceil]
    simp

/-- For a positive integer bound, truncation toward zero is below it exactly when the
number is. -/
theorem truncToInt_lt_iff (t : F) (n : Int) (hn : 0 < n) : truncToInt t < n ↔ t < n := by
  unfold truncToInt
  by_cases h : 0 ≤ t
  · rw [if_pos h, Int.floor_lt]
  · rw [if_neg h]
    have ht : t < 0 := not_le.mp h
    have hn2 : (0 : F) < n := by exact_mod_cast hn
    constructor
    · intro _; linarith
    · intro _
      have : Int.ceil t ≤ 0 := Int.ceil_le.mpr (by simpa using ht.le)
      omega

/-- Truncation toward zero gives 0 exactly on the open interval `(-1, 1)`. -/
theorem truncToInt_eq_zero_iff (t : F) : truncToInt t = 0 ↔ -1 < t ∧ t < 1 := by
  have h1 := truncToInt_nonneg_iff t
  have h2 := truncToInt_lt_iff t 1 (by norm_num)
  simp only [Int.cast_one] at h2
  constructor
  · intro h
    exact ⟨h1.mp (by omega), h2.mp (by omega)⟩
  · rintro ⟨ha, hb⟩
    have := h1.mpr ha
    have := h2.mpr hb
    omega

/-- A sample survives line 141 exactly when `sampleHit` returns something. -/
theorem sampleHit_isSome_iff (M : Libm F) (cosPhi sinPhi : F) (uv : F → F → Int → vec3 F)
    (normal : vec3 F → Int → vec3 F) (s : Int × F × F) :
    (sampleHit M cosPhi sinPhi uv normal s).isSome = true ↔
      (0 ≤ pixelX (sampleScreenCoords cosPhi sinPhi uv s) ∧
        pixelX (sampleScreenCoords cosPhi sinPhi uv s) < (SCREEN_WIDTH : Int) ∧
        0 ≤ pixelY (sampleScreenCoords cosPhi sinPhi uv s) ∧
        pixelY (sampleScreenCoords cosPhi sinPhi uv s) < (SCREEN_HEIGHT : Int)) := by
  unfold sampleHit sampleScreenCoords
  dsimp only
  split
  · rename_i hb
    simp only [Option.isSome_none, Bool.false_eq_true, false_iff]
    intro hc
    rcases hb with h | h | h | h <;> omega
  · rename_i hb
    simp only [Option.isSome_some, true_iff]
    simp only [not_or, not_lt, ge_iff_le, not_le] at hb
    exact hb

end PixelFacts

/-- C16: the pixel of a sample is `px = trunc((sx/2 + 0.5) * 32)`,
`py = trunc((sy/2 + 0.5) * 128)`, truncating toward zero; the sample is kept exactly
when `0 ≤ px < 32` and `0 ≤ py < 128`, that is exactly when the scaled coordinates
satisfy `-1 < (sx/2 + 0.5) * 32 < 32` and `-1 < (sy/2 + 0.5) * 128 < 128`; and the
pixel coordinate is 0 exactly for scaled coordinates in `(-1, 1)`, so those in
`(-1, 0)` land in column (row) 0 instead of being discarded. -/
theorem pixel_mapping_and_discard {F : Type} [LinearOrderedField F] [FloorRing F]
    (M : Libm F) (cosPhi sinPhi : F) (uv : F → F → Int → vec3 F)
    (normal : vec3 F → Int → vec3 F) (s : Int × F × F) :
    pixelX (sampleScreenCoords cosPhi sinPhi uv s) =
      truncToInt (((sampleScreenCoords cosPhi sinPhi uv s).x / 2 + 1 / 2) * 32) ∧
    pixelY (sampleScreenCoords cosPhi sinPhi uv s) =
      truncToInt (((sampleScreenCoords cosPhi sinPhi uv s).y / 2 + 1 / 2) * 128) ∧
    ((sampleHit M cosPhi sinPhi uv normal s).isSome = true ↔
      (0 ≤ pixelX (sampleScreenCoords cosPhi sinPhi uv s) ∧
        pixelX (sampleScreenCoords cosPhi sinPhi uv s) < 32 ∧
        0 ≤ pixelY (sampleScreenCoords cosPhi sinPhi uv s) ∧
        pixelY (sampleScreenCoords cosPhi sinPhi uv s) < 128)) ∧
    ((sampleHit M cosPhi sinPhi uv normal s).isSome = true ↔
      (-1 < ((sampleScreenCoords cosPhi sinPhi uv s).x / 2 + 1 / 2) * 32 ∧
        ((sampleScreenCoords cosPhi sinPhi uv s).x / 2 + 1 / 2) * 32 < 32 ∧
        -1 < ((sampleScreenCoords cosPhi sinPhi uv s).y / 2 + 1 / 2) * 128 ∧
        ((sampleScreenCoords cosPhi sinPhi uv s).y / 2 + 1 / 2) * 128 < 128)) ∧
    (pixelX (sampleScreenCoords cosPhi sinPhi uv s) = 0 ↔
      (-1 < ((sampleScreenCoords cosPhi sinPhi uv s).x / 2 + 1 / 2) * 32 ∧
        ((sampleScreenCoords cosPhi sinPhi uv s).x / 2 + 1 / 2) * 32 < 1)) ∧
    (pixelY (sampleScreenCoords cosPhi sinPhi uv s) = 0 ↔
      (-1 < ((sampleScreenCoords cosPhi sinPhi uv s).y / 2 + 1 / 2) * 128 ∧
        ((sampleScreenCoords cosPhi sinPhi uv s).y / 2 + 1 / 2) * 128 < 1)) := by
  have hpx : pixelX (sampleScreenCoords cosPhi sinPhi uv s) =
      truncToInt (((sampleScreenCoords cosPhi sinPhi uv s).x / 2 + 1 / 2) * 32) := by
    simp [pixelX, SCREEN_WIDTH]
  have hpy : pixelY (sampleScreenCoords cosPhi sinPhi uv s) =
      truncToInt (((sampleScreenCoords cosPhi sinPhi uv s).y / 2 + 1 / 2) * 128) := by
    simp [pixelY, SCREEN_HEIGHT]
  have hkeep := sampleHit_isSome_iff M cosPhi sinPhi uv normal s
  simp only [SCREEN_WIDTH, SCREEN_HEIGHT, Nat.cast_ofNat] at hkeep
  refine ⟨hpx, hpy, hkeep, ?_, ?_, ?_⟩
  · rw [hkeep, hpx, hpy, truncToInt_nonneg_iff, truncToInt_nonneg_iff,
      truncToInt_lt_iff _ 32 (by norm_num), truncToInt_lt_iff _ 128 (by norm_num)]
    simp
  · rw [hpx, truncToInt_eq_zero_iff]
  · rw [hpy, truncToInt_eq_zero_iff]

/-! ## Buffer indices -/

/-- The character `convertFrameToOLEDChars` stores in cell `i`. -/
theorem convertFrameToOLEDChars_at {F : Type} [LinearOrderedField F] (frameData : List F)
    (i : Nat) (hi : i < SCREEN_WIDTH * SCREEN_HEIGHT) :
    (convertFrameToOLEDChars frameData)[i]? =
      some (if dither (frameData.getD i 0) ((i : Int) % (SCREEN_WIDTH : Int))
        ((i : Int) / (SCREEN_WIDTH : Int)) ≠ 0 then '#' else ' ') := by
  unfold convertFrameToOLEDChars
  rw [List.getElem?_map, List.getElem?_range hi]
  rfl

/-- C19: for `0 ≤ x < 32` and `0 ≤ y < 128` the index `get2DIndex(x, y) = y*32 + x` lies
in `[0, 4096)`, its remainder by 32 is `x` and its quotient `y`; every `i` in
`[0, 4096)` is `get2DIndex(i mod 32, i div 32)`; every index `generateFrame` writes is
below 4096; and `convertFrameToOLEDChars` fills the cell `get2DIndex(x, y)` with the
dither of that cell's brightness at exactly `(x, y)`. -/
theorem index_consistency {F : Type} [LinearOrderedField F] [FloorRing F] (x y : Int)
    (hx0 : 0 ≤ x) (hx : x < 32) (hy0 : 0 ≤ y) (hy : y < 128) :
    get2DIndex x y = y * 32 + x ∧
    0 ≤ get2DIndex x y ∧ get2DIndex x y < 4096 ∧
    get2DIndex x y % 32 = x ∧ get2DIndex x y / 32 = y ∧
    (get2DIndex x y).tmod 32 = x ∧ (get2DIndex x y).tdiv 32 = y ∧
    (∀ i : Int, 0 ≤ i → i < 4096 → get2DIndex (i % 32) (i / 32) = i) ∧
    (∀ (M : Libm F) (cosPhi sinPhi : F) (uv : F → F → Int → vec3 F)
        (normal : vec3 F → Int → vec3 F) (s : Int × F × F) (h : Nat × F × F),
      sampleHit M cosPhi sinPhi uv normal s = some h →
        h.1 < SCREEN_WIDTH * SCREEN_HEIGHT) ∧
    (∀ frameData : List F,
      (convertFrameToOLEDChars frameData)[(get2DIndex x y).toNat]? =
        some (if dither (frameData.getD (get2DIndex x y).toNat 0) x y ≠ 0
          then '#' else ' ')) := by
  have hidx : get2DIndex x y = y * 32 + x := by simp [get2DIndex, SCREEN_WIDTH]
  have hmod : (y * 32 + x) % 32 = x := by omega
  have hdiv : (y * 32 + x) / 32 = y := by omega
  have hnn : 0 ≤ y * 32 + x := by omega
  refine ⟨hidx, by omega, by omega, by rw [hidx]; exact hmod, by rw [hidx]; exact hdiv,
    ?_, ?_, ?_, ?_, ?_⟩
  · rw [hidx, Int.tmod_eq_emod hnn (by norm_num)]; exact hmod
  · rw [hidx, Int.tdiv_eq_ediv hnn (by norm_num)]; exact hdiv
  · intro i hi0 hi
    simp only [get2DIndex, SCREEN_WIDTH]
    push_cast
    omega
  · intro M cosPhi sinPhi uv normal s h hs
    exact sampleHit_inBounds M cosPhi sinPhi uv normal s h hs
  · intro frameData
    have hlt : (get2DIndex x y).toNat < SCREEN_WIDTH * SCREEN_HEIGHT := by
      simp only [SCREEN_WIDTH, SCREEN_HEIGHT]; omega
    rw [convertFrameToOLEDChars_at frameData _ hlt]
    have hcast : (((get2DIndex x y).toNat : Nat) : Int) = y * 32 + x := by
      rw [Int.toNat_of_nonneg (by omega), hidx]
    simp only [SCREEN_WIDTH, Nat.cast_ofNat, hcast, hmod, hdiv]

/-- Witness of C19 at the pixel `(9, 2)`, index 73. -/
theorem index_consistency_witness :
    (0 : Int) ≤ 9 ∧ (9 : Int) < 32 ∧ (0 : Int) ≤ 2 ∧ (2 : Int) < 128 ∧
    get2DIndex 9 2 = 73 ∧ get2DIndex 9 2 % 32 = 9 ∧ get2DIndex 9 2 / 32 = 2 ∧
    (convertFrameToOLEDChars ((List.replicate 4096 (0 : ℚ)).set 73 1))[73]? = some '#' := by
  have h := index_consistency (F := ℚ) 9 2 (by decide) (by decide) (by decide) (by decide)
  obtain ⟨h1, _, _, h4, h5, _, _, _, _, h10⟩ := h
  refine ⟨by decide, by decide, by decide, by decide, by rw [h1]; decide, h4, h5, ?_⟩
  have e : (get2DIndex 9 2).toNat = 73 := by rw [h1]; decide
  have h := h10 ((List.replicate 4096 (0 : ℚ)).set 73 1)
  rw [e] at h
  rw [h]
  have hv : ((List.replicate 4096 (0 : ℚ)).set 73 1).getD 73 0 = 1 := by
    rw [List.getD_eq_getElem?_getD, List.getElem?_set, List.length_replicate,
      if_pos rfl, if_pos (by norm_num)]
    rfl
  rw [hv]
  have hd : dither (1 : ℚ) 9 2 = 1 := by
    simp only [dither]
    norm_num
  rw [hd]
  rfl

/-! ## Frame loops -/

section LoopFacts

variable {F : Type} [LinearOrderedField F]

/-- After `n` iterations the accumulator is `n * delta` and the body has been run on
`(k, (k + 1) * delta)` for `k = 0, ..., n - 1`, in this order. -/
theorem frameLoop_fold {A : Type} (delta : F) (body : Nat → F → A) (n : Nat) :
    (List.range n).foldl
        (fun (st : F × List A) f => (st.1 + delta, st.2 ++ [body f (st.1 + delta)]))
        (0, []) =
      ((n : F) * delta, (List.range n).map fun k => body k (((k : F) + 1) * delta)) := by
  induction n with
  | zero => simp
  | succ n ih =>
    rw [List.range_succ, List.foldl_concat, ih, List.map_append]
    have e : (n : F) * delta + delta = ((n : F) + 1) * delta := by ring
    simp only [e, List.map_cons, List.map_nil, Nat.cast_succ]

/-- The frame loop runs its body exactly `NUM_FRAMES` times, iteration `k` with the
angle `(k + 1) * PHI_DELTA`. -/
theorem frameLoop_eq {A : Type} (M : Libm F) (body : Nat → F → A) :
    frameLoop M body =
      (List.range NUM_FRAMES).map fun k => body k (((k : F) + 1) * PHI_DELTA M) := by
  unfold frameLoop
  have h := frameLoop_fold (PHI_DELTA M) body NUM_FRAMES
  exact congrArg Prod.snd h

end LoopFacts

/-- C14: each of the three drivers runs `generateFrame` exactly `NUM_FRAMES = 32` times,
frame `k` (from 0) at the angle `(k + 1) * (PI / 32)`; the first frame is at `PI / 32`
and the last at `PI`. -/
theorem frame_angles {F : Type} [LinearOrderedField F] [FloorRing F] (M : Libm F)
    (uv : F → F → Int → vec3 F) (normal : vec3 F → Int → vec3 F) :
    printOledDataToHexConsole M uv normal =
      (List.range 32).map (fun (k : Nat) =>
        (k, printOLEDHex (convertFrameToOLEDChars
          (generateFrame M (((k : F) + 1) * (M.PI / 32)) uv normal).frameData))) ∧
    renderOledDataToConsole M uv normal =
      (List.range 32).map (fun (k : Nat) =>
        convertFrameToOLEDChars
          (generateFrame M (((k : F) + 1) * (M.PI / 32)) uv normal).frameData) ∧
    asciiOledDataToConsole M uv normal =
      (List.range 32).map (fun (k : Nat) =>
        printFrameASCII (generateFrame M (((k : F) + 1) * (M.PI / 32)) uv normal).frameData) ∧
    (printOledDataToHexConsole M uv normal).length = 32 ∧
    (renderOledDataToConsole M uv normal).length = 32 ∧
    (asciiOledDataToConsole M uv normal).length = 32 ∧
    (((0 : Nat) : F) + 1) * (M.PI / 32) = M.PI / 32 ∧
    (((31 : Nat) : F) + 1) * (M.PI / 32) = M.PI := by
  have hd : PHI_DELTA M = M.PI / 32 := by simp [PHI_DELTA, NUM_FRAMES]
  have h1 : printOledDataToHexConsole M uv normal =
      (List.range 32).map (fun (k : Nat) =>
        (k, printOLEDHex (convertFrameToOLEDChars
          (generateFrame M (((k : F) + 1) * (M.PI / 32)) uv normal).frameData))) := by
    unfold printOledDataToHexConsole
    rw [frameLoop_eq, hd]
    rfl
  have h2 : renderOledDataToConsole M uv normal =
      (List.range 32).map (fun (k : Nat) =>
        convertFrameToOLEDChars
          (generateFrame M (((k : F) + 1) * (M.PI / 32)) uv normal).frameData) := by
    unfold renderOledDataToConsole
    rw [frameLoop_eq, hd]
    rfl
  have h3 : asciiOledDataToConsole M uv normal =
      (List.range 32).map (fun (k : Nat) =>
        printFrameASCII
          (generateFrame M (((k : F) + 1) * (M.PI / 32)) uv normal).frameData) := by
    unfold asciiOledDataToConsole
    rw [frameLoop_eq, hd]
    rfl
  refine ⟨h1, h2, h3, ?_, ?_, ?_, ?_, ?_⟩
  · rw [h1]; simp
  · rw [h2]; simp
  · rw [h3]; simp
  · simp
  · push_cast; ring

/-! ## Visibility -/

/-- After any sequence of updates, pixel `p` holds either its initial depth and
brightness (and then every sample that landed on `p` was strictly farther), or the
depth and the brightness of one and the same sample that landed on `p`; in both cases
the depth is at most the initial one and at most that of every sample on `p`. -/
theorem storeAll_nearest {F : Type} [LinearOrderedField F] (p : Nat)
    (hits : List (Nat × F × F)) :
    ∀ (st : FrameBuffers F) (z0 b0 : F), st.zBuffer[p]? = some z0 →
      st.frameData[p]? = some b0 →
      ∃ z b, (storeAll st hits).zBuffer[p]? = some z ∧
        (storeAll st hits).frameData[p]? = some b ∧ z ≤ z0 ∧
        (∀ h ∈ hits, h.1 = p → z ≤ h.2.1) ∧
        ((z = z0 ∧ b = b0 ∧ ∀ h ∈ hits, h.1 = p → z0 < h.2.1) ∨
          ∃ h ∈ hits, h.1 = p ∧ h.2.1 = z ∧ h.2.2 = b) := by
  induction hits with
  | nil =>
    intro st z0 b0 hz hf
    exact ⟨z0, b0, hz, hf, le_refl _, by simp, Or.inl ⟨rfl, rfl, by simp⟩⟩
  | cons h t ih =>
    intro st z0 b0 hz hf
    rw [storeAll_cons]
    have hz1 := zStore_zBuffer_at st h.1 p h.2.1 h.2.2 z0 hz
    have hf1 := zStore_frameData_at st h.1 p h.2.1 h.2.2 z0 b0 hz hf
    by_cases hc : h.1 = p ∧ h.2.1 ≤ z0
    · rw [if_pos hc.1, min_eq_right hc.2] at hz1
      rw [if_pos hc] at hf1
      obtain ⟨z, b, hz2, hf2, hle, hall, hcase⟩ := ih _ _ _ hz1 hf1
      refine ⟨z, b, hz2, hf2, le_trans hle hc.2, ?_, ?_⟩
      · intro h2 hmem hp
        rcases List.mem_cons.mp hmem with rfl | hin
        · exact hle
        · exact hall h2 hin hp
      · right
        rcases hcase with ⟨hzeq, hbeq, _⟩ | ⟨h2, hin, hp, hd, hb⟩
        · exact ⟨h, List.mem_cons_self _ _, hc.1, hzeq.symm, hbeq.symm⟩
        · exact ⟨h2, List.mem_cons_of_mem _ hin, hp, hd, hb⟩
    · have hfar : h.1 = p → z0 < h.2.1 := fun hp => not_le.mp (fun hle => hc ⟨hp, hle⟩)
      have hz1b : (zStore st h.1 h.2.1 h.2.2).zBuffer[p]? = some z0 := by
        rw [hz1]
        by_cases hp : h.1 = p
        · rw [if_pos hp, min_eq_left (le_of_lt (hfar hp))]
        · rw [if_neg hp]
      rw [if_neg hc] at hf1
      obtain ⟨z, b, hz2, hf2, hle, hall, hcase⟩ := ih _ _ _ hz1b hf1
      refine ⟨z, b, hz2, hf2, hle, ?_, ?_⟩
      · intro h2 hmem hp
        rcases List.mem_cons.mp hmem with rfl | hin
        · exact le_trans hle (le_of_lt (hfar hp))
        · exact hall h2 hin hp
      · rcases hcase with ⟨hzeq, hbeq, hrest⟩ | ⟨h2, hin, hp, hd, hb⟩
        · left
          refine ⟨hzeq, hbeq, ?_⟩
          intro h2 hmem hp
          rcases List.mem_cons.mp hmem with rfl | hin
          · exact hfar hp
          · exact hrest h2 hin hp
        · right
          exact ⟨h2, List.mem_cons_of_mem _ hin, hp, hd, hb⟩

/-- C17: fold the z-buffer update over in-bounds samples of depth at most 1000.  A pixel
hit at least once ends with the brightness of a sample whose depth is the minimum
among the samples that hit it (and with that depth in the z-buffer); a pixel never hit
has brightness 0. -/
theorem visible_sample_is_nearest {F : Type} [LinearOrderedField F]
    (hits : List (Nat × F × F))
    (_hin : ∀ h ∈ hits, h.1 < SCREEN_WIDTH * SCREEN_HEIGHT)
    (hle : ∀ h ∈ hits, h.2.1 ≤ 1000)
    (p : Nat) (hp : p < SCREEN_WIDTH * SCREEN_HEIGHT) :
    ((∃ h ∈ hits, h.1 = p) →
      ∃ h ∈ hits, h.1 = p ∧
        (storeAll clearBuffers hits).frameData[p]? = some h.2.2 ∧
        (storeAll clearBuffers hits).zBuffer[p]? = some h.2.1 ∧
        ∀ h2 ∈ hits, h2.1 = p → h.2.1 ≤ h2.2.1) ∧
    ((∀ h ∈ hits, h.1 ≠ p) → (storeAll clearBuffers hits).frameData[p]? = some 0) := by
  obtain ⟨z, b, hz, hf, _, hall, hcase⟩ := storeAll_nearest p hits
    (clearBuffers : FrameBuffers F) 1000 0 (clearBuffers_zBuffer_at p hp)
    (clearBuffers_frameData_at p hp)
  constructor
  · rintro ⟨h0, h0in, h0p⟩
    rcases hcase with ⟨_, _, hfar⟩ | ⟨h, hmem, hhp, hd, hb⟩
    · exact absurd (hle h0 h0in) (not_le.mpr (hfar h0 h0in h0p))
    · exact ⟨h, hmem, hhp, by rw [hf, hb], by rw [hz, hd],
        fun h2 hm hq => by rw [hd]; exact hall h2 hm hq⟩
  · intro hnone
    rcases hcase with ⟨_, hb, _⟩ | ⟨h, hmem, hhp, _, _⟩
    · rw [hf, hb]
    · exact absurd hhp (hnone h hmem)

/-- Witness of C17: on pixel 3 the samples of depths 7, 5 and 5 with brightness 1/2,
1/4 and 3/4; one sample on pixel 9. -/
theorem visible_sample_is_nearest_witness :
    (∀ h ∈ [((3 : Nat), (7 : ℚ), (1 / 2 : ℚ)), (3, 5, 1 / 4), (9, 6, 1), (3, 5, 3 / 4)],
      h.1 < SCREEN_WIDTH * SCREEN_HEIGHT) ∧
    (∀ h ∈ [((3 : Nat), (7 : ℚ), (1 / 2 : ℚ)), (3, 5, 1 / 4), (9, 6, 1), (3, 5, 3 / 4)],
      h.2.1 ≤ 1000) ∧
    (3 < SCREEN_WIDTH * SCREEN_HEIGHT) ∧
    ∃ h ∈ [((3 : Nat), (7 : ℚ), (1 / 2 : ℚ)), (3, 5, 1 / 4), (9, 6, 1), (3, 5, 3 / 4)],
      h.1 = 3 ∧
      (storeAll clearBuffers [((3 : Nat), (7 : ℚ), (1 / 2 : ℚ)), (3, 5, 1 / 4), (9, 6, 1),
        (3, 5, 3 / 4)]).frameData[3]? = some h.2.2 ∧
      (storeAll clearBuffers [((3 : Nat), (7 : ℚ), (1 / 2 : ℚ)), (3, 5, 1 / 4), (9, 6, 1),
        (3, 5, 3 / 4)]).zBuffer[3]? = some h.2.1 ∧
      ∀ h2 ∈ [((3 : Nat), (7 : ℚ), (1 / 2 : ℚ)), (3, 5, 1 / 4), (9, 6, 1), (3, 5, 3 / 4)],
        h2.1 = 3 → h.2.1 ≤ h2.2.1 :=
  ⟨by simp [SCREEN_WIDTH, SCREEN_HEIGHT], by simp; norm_num, by decide,
    (visible_sample_is_nearest _ (by simp [SCREEN_WIDTH, SCREEN_HEIGHT]) (by simp; norm_num) 3
      (by decide)).1 ⟨(3, 7, 1 / 2), by simp, rfl⟩⟩

/-! ## The ASCII ramp -/

/-- C13 (the code at concrete brightness values): `sizeof(shades)` is 13, so the
brightness is scaled by 12, not 11.  At brightness 1 the index is 12 and the character
selected is the terminating NUL of `shades`, not the last ramp character `#`, which is
at index 11; at brightness 1/2 the index is 6, not `floor(11/2) = 5`. -/
theorem shade_index_at_full_brightness {F : Type} [LinearOrderedField F] [FloorRing F] :
    shades.length = 13 ∧
    shadeIndex (1 : F) = 12 ∧
    shadeChar (1 : F) = Char.ofNat 0 ∧
    shades.getD 11 (Char.ofNat 0) = '#' ∧
    shadeIndex (1 / 2 : F) = 6 ∧
    Int.floor ((11 : F) * (1 / 2)) = 5 := by
  have hlen : shades.length = 13 := by decide
  have h1 : shadeIndex (1 : F) = 12 := by
    simp only [shadeIndex, truncToInt, hlen]
    norm_num
  have h2 : shadeIndex (1 / 2 : F) = 6 := by
    simp only [shadeIndex, truncToInt, hlen]
    norm_num
  refine ⟨hlen, h1, ?_, by decide, h2, ?_⟩
  · simp only [shadeChar, h1]
    decide
  · rw [Int.floor_eq_iff]
    norm_num

/-! ## Dither density -/

section DensityFacts

variable {F : Type} [LinearOrderedField F]

theorem dither_eq_bandPattern (l : F) (x y : Int) :
    dither l x y = bandPattern (bandIndex l) x y := by
  unfold dither bandIndex
  by_cases h0 : l ≤ 0
  · rw [if_pos h0, if_pos h0]; rfl
  rw [if_neg h0, if_neg h0]
  by_cases h1 : l ≤ 11 / 100
  · rw [if_pos h1, if_pos h1]; rfl
  rw [if_neg h1, if_neg h1]
  by_cases h2 : l ≤ 25 / 100
  · rw [if_pos h2, if_pos h2]; rfl
  rw [if_neg h2, if_neg h2]
  by_cases h3 : l ≤ 33 / 100
  · rw [if_pos h3, if_pos h3]; rfl
  rw [if_neg h3, if_neg h3]
  by_cases h4 : l ≤ 5 / 10
  · rw [if_pos h4, if_pos h4]; rfl
  rw [if_neg h4, if_neg h4]
  by_cases h5 : l ≤ 66 / 100
  · rw [if_pos h5, if_pos h5]; rfl
  rw [if_neg h5, if_neg h5]
  by_cases h6 : l ≤ 75 / 100
  · rw [if_pos h6, if_pos h6]; rfl
  rw [if_neg h6, if_neg h6]
  by_cases h7 : l ≤ 88 / 100
  · rw [if_pos h7, if_pos h7]; rfl
  rw [if_neg h7, if_neg h7]
  rfl

theorem ditherCount_eq_patternCount (l : F) (x0 y0 : Int) :
    ditherCount l x0 y0 = patternCount (bandIndex l) x0 y0 := by
  unfold ditherCount patternCount
  simp only [dither_eq_bandPattern]

theorem bandPattern_congr (k : Nat) (x y x2 y2 : Int)
    (hx2 : x % 2 = x2 % 2) (hx3 : x % 3 = x2 % 3)
    (hy2 : y % 2 = y2 % 2) (hy3 : y % 3 = y2 % 3) :
    bandPattern k x y = bandPattern k x2 y2 := by
  have s2 : (x + y) % 2 = (x2 + y2) % 2 := by omega
  have s3 : (x + y) % 3 = (x2 + y2) % 3 := by omega
  unfold bandPattern
  split <;> simp only [ne_eq, tmod_eq_zero_iff_emod, hx2, hx3, hy2, hy3, s2, s3]

/-- The count does not change when the window origin is reduced modulo 6. -/
theorem patternCount_mod (k : Nat) (x0 y0 : Int) :
    patternCount k x0 y0 = patternCount k (x0 % 6) (y0 % 6) := by
  unfold patternCount
  have h : ∀ i j : Nat, bandPattern k (x0 + (i : Int)) (y0 + (j : Int)) =
      bandPattern k (x0 % 6 + (i : Int)) (y0 % 6 + (j : Int)) := by
    intro i j
    apply bandPattern_congr <;> omega
  simp only [h]

set_option maxRecDepth 100000 in
/-- The table of counts, checked on every band and every window origin in
`[0, 6) x [0, 6)`. -/
theorem patternCount_table : ∀ k : Fin 9, ∀ a b : Fin 6,
    patternCount k.val (a.val : Int) (b.val : Int) = countOfBand k.val := by
  decide!

theorem bandIndex_lt (l : F) : bandIndex l < 9 := by
  unfold bandIndex
  split_ifs <;> omega

theorem bandCount_eq (l : F) : bandCount l = countOfBand (bandIndex l) := by
  unfold bandCount bandIndex
  split_ifs <;> rfl

/-- In every 6 x 6 window the number of lit pixels is the band's count. -/
theorem ditherCount_eq_bandCount (l : F) (x0 y0 : Int) :
    ditherCount l x0 y0 = bandCount l := by
  rw [ditherCount_eq_patternCount, patternCount_mod, bandCount_eq]
  have ha0 : 0 ≤ x0 % 6 := Int.emod_nonneg _ (by norm_num)
  have ha1 : x0 % 6 < 6 := Int.emod_lt_of_pos _ (by norm_num)
  have hb0 : 0 ≤ y0 % 6 := Int.emod_nonneg _ (by norm_num)
  have hb1 : y0 % 6 < 6 := Int.emod_lt_of_pos _ (by norm_num)
  have h := patternCount_table ⟨bandIndex l, bandIndex_lt l⟩
    ⟨(x0 % 6).toNat, by omega⟩ ⟨(y0 % 6).toNat, by omega⟩
  simp only [Int.toNat_of_nonneg ha0, Int.toNat_of_nonneg hb0] at h
  exact h

/-- Below each threshold of the ladder the count is at most that of the band ending
there. -/
theorem bandCount_le_of_le (l : F) :
    (l ≤ 0 → bandCount l ≤ 0) ∧ (l ≤ 11 / 100 → bandCount l ≤ 4) ∧
    (l ≤ 25 / 100 → bandCount l ≤ 9) ∧ (l ≤ 33 / 100 → bandCount l ≤ 12) ∧
    (l ≤ 5 / 10 → bandCount l ≤ 18) ∧ (l ≤ 66 / 100 → bandCount l ≤ 24) ∧
    (l ≤ 75 / 100 → bandCount l ≤ 27) ∧ (l ≤ 88 / 100 → bandCount l ≤ 32) ∧
    bandCount l ≤ 36 := by
  unfold bandCount
  by_cases h0 : l ≤ 0
  · simp only [if_pos h0]; simp
  rw [if_neg h0]
  by_cases h1 : l ≤ 11 / 100
  · simp only [if_pos h1]
    refine ⟨fun h => absurd h h0, ?_⟩
    simp
  rw [if_neg h1]
  by_cases h2 : l ≤ 25 / 100
  · simp only [if_pos h2]
    refine ⟨fun h => absurd h h0, fun h => absurd h h1, ?_⟩
    simp
  rw [if_neg h2]
  by_cases h3 : l ≤ 33 / 100
  · simp only [if_pos h3]
    refine ⟨fun h => absurd h h0, fun h => absurd h h1, fun h => absurd h h2, ?_⟩
    simp
  rw [if_neg h3]
  by_cases h4 : l ≤ 5 / 10
  · simp only [if_pos h4]
    refine ⟨fun h => absurd h h0, fun h => absurd h h1, fun h => absurd h h2,
      fun h => absurd h h3, ?_⟩
    simp
  rw [if_neg h4]
  by_cases h5 : l ≤ 66 / 100
  · simp only [if_pos h5]
    refine ⟨fun h => absurd h h0, fun h => absurd h h1, fun h => absurd h h2,
      fun h => absurd h h3, fun h => absurd h h4, ?_⟩
    simp
  rw [if_neg h5]
  by_cases h6 : l ≤ 75 / 100
  · simp only [if_pos h6]
    refine ⟨fun h => absurd h h0, fun h => absurd h h1, fun h => absurd h h2,
      fun h => absurd h h3, fun h => absurd h h4, fun h => absurd h h5, ?_⟩
    simp
  rw [if_neg h6]
  by_cases h7 : l ≤ 88 / 100
  · simp only [if_pos h7]
    refine ⟨fun h => absurd h h0, fun h => absurd h h1, fun h => absurd h h2,
      fun h => absurd h h3, fun h => absurd h h4, fun h => absurd h h5,
      fun h => absurd h h6, ?_⟩
    simp
  rw [if_neg h7]
  exact ⟨fun h => absurd h h0, fun h => absurd h h1, fun h => absurd h h2,
    fun h => absurd h h3, fun h => absurd h h4, fun h => absurd h h5,
    fun h => absurd h h6, fun h => absurd h h7, le_refl _⟩

theorem bandCount_mono (l l2 : F) (h : l ≤ l2) : bandCount l ≤ bandCount l2 := by
  obtain ⟨a0, a1, a2, a3, a4, a5, a6, a7, a8⟩ := bandCount_le_of_le l
  have e : bandCount l2 = bandCount l2 := rfl
  conv_rhs at e => unfold bandCount
  rw [e]
  by_cases h0 : l2 ≤ 0
  · rw [if_pos h0]; exact a0 (le_trans h h0)
  rw [if_neg h0]
  by_cases h1 : l2 ≤ 11 / 100
  · rw [if_pos h1]; exact a1 (le_trans h h1)
  rw [if_neg h1]
  by_cases h2 : l2 ≤ 25 / 100
  · rw [if_pos h2]; exact a2 (le_trans h h2)
  rw [if_neg h2]
  by_cases h3 : l2 ≤ 33 / 100
  · rw [if_pos h3]; exact a3 (le_trans h h3)
  rw [if_neg h3]
  by_cases h4 : l2 ≤ 5 / 10
  · rw [if_pos h4]; exact a4 (le_trans h h4)
  rw [if_neg h4]
  by_cases h5 : l2 ≤ 66 / 100
  · rw [if_pos h5]; exact a5 (le_trans h h5)
  rw [if_neg h5]
  by_cases h6 : l2 ≤ 75 / 100
  · rw [if_pos h6]; exact a6 (le_trans h h6)
  rw [if_neg h6]
  by_cases h7 : l2 ≤ 88 / 100
  · rw [if_pos h7]; exact a7 (le_trans h h7)
  rw [if_neg h7]
  exact a8

theorem bandCount_fraction (l : F) (h : l ≤ 1) : l ≤ (bandCount l : F) / 36 := by
  unfold bandCount
  split_ifs <;> push_cast <;> linarith

end DensityFacts

/-- C18: in every window of 6 consecutive columns and 6 consecutive rows the number of
pixels lit at brightness `l` depends only on the band of `l` and is 0, 4, 9, 12, 18,
24, 27, 32, 36 in the nine bands in increasing brightness order; it is nondecreasing
in `l`, and for `l ≤ 1` the lit fraction `N(l) / 36` is at least `l`.  (The origin may
be any pair of integers, in particular any non-negative one.) -/
theorem dither_density {F : Type} [LinearOrderedField F] (l : F) (x0 y0 : Int) :
    ditherCount l x0 y0 = bandCount l ∧
    (∀ (x1 y1 : Int), ditherCount l x1 y1 = ditherCount l x0 y0) ∧
    (∀ l2 : F, l ≤ l2 → ditherCount l x0 y0 ≤ ditherCount l2 x0 y0) ∧
    (l ≤ 1 → l ≤ (ditherCount l x0 y0 : F) / 36) := by
  refine ⟨ditherCount_eq_bandCount l x0 y0, ?_, ?_, ?_⟩
  · intro x1 y1
    rw [ditherCount_eq_bandCount, ditherCount_eq_bandCount]
  · intro l2 h
    rw [ditherCount_eq_bandCount, ditherCount_eq_bandCount]
    exact bandCount_mono l l2 h
  · intro h
    rw [ditherCount_eq_bandCount]
    exact bandCount_fraction l h

/-- Witness of C18 at brightness 0.2 and 0.7, window origin `(7, 3)`: 9 and 27 lit
pixels out of 36. -/
theorem dither_density_witness :
    ditherCount (2 / 10 : ℚ) 7 3 = 9 ∧ ditherCount (7 / 10 : ℚ) 7 3 = 27 ∧
    ditherCount (2 / 10 : ℚ) 7 3 ≤ ditherCount (7 / 10 : ℚ) 7 3 ∧
    (2 / 10 : ℚ) ≤ (ditherCount (2 / 10 : ℚ) 7 3 : ℚ) / 36 := by
  have h1 := dither_density (2 / 10 : ℚ) 7 3
  have h2 := dither_density (7 / 10 : ℚ) 7 3
  have e1 : bandCount (2 / 10 : ℚ) = 9 := by unfold bandCount; norm_num
  have e2 : bandCount (7 / 10 : ℚ) = 27 := by unfold bandCount; norm_num
  refine ⟨h1.1.trans e1, h2.1.trans e2, h1.2.2.1 (7 / 10) (by norm_num), h1.2.2.2 (by norm_num)⟩

/-! ## The twisted strip -/

section StripFacts

/-- The strip point with the exact library: radius `1.3 (cos πv + 1) / 2`, angle
`2πv + πu/4 + πi`, height `v`. -/
theorem defaultUV_exact (M : Libm ℝ) (hM : M.exact) (u v : ℝ) (i : Int) :
    defaultUV M u v i =
      ⟨13 / 10 * (Real.cos (Real.pi * v) + 1) / 2 *
          Real.cos (2 * Real.pi * v + Real.pi * u / 4 + Real.pi * (i : ℝ)),
        13 / 10 * (Real.cos (Real.pi * v) + 1) / 2 *
          Real.sin (2 * Real.pi * v + Real.pi * u / 4 + Real.pi * (i : ℝ)),
        v⟩ := by
  obtain ⟨_, hcos, hsin, _, hpi⟩ := hM
  have e : 2 * Real.pi * v + Real.pi / 2 * u / 2 + 2 * (Real.pi / 2) * (i : ℝ) =
      2 * Real.pi * v + Real.pi * u / 4 + Real.pi * (i : ℝ) := by ring
  simp only [defaultUV, hcos, hsin, hpi, NUM_SURFACES, WIDTH_SCALE, Nat.cast_ofNat, e]

/-- The radius of the strip lies in `[0, 1.3]`. -/
theorem strip_radius_range (v : ℝ) :
    0 ≤ 13 / 10 * (Real.cos (Real.pi * v) + 1) / 2 ∧
    13 / 10 * (Real.cos (Real.pi * v) + 1) / 2 ≤ 13 / 10 := by
  have h1 := Real.neg_one_le_cos (Real.pi * v)
  have h2 := Real.cos_le_one (Real.pi * v)
  constructor <;> linarith

/-- The x coordinate of the rotated strip point lies in `[-1.3, 1.3]`. -/
theorem strip_rotated_x_range (M : Libm ℝ) (hM : M.exact) (u v phi : ℝ) (i : Int) :
    -(13 / 10) ≤ (rotateZ (M.cosf phi) (M.sinf phi) (defaultUV M u v i)).x ∧
    (rotateZ (M.cosf phi) (M.sinf phi) (defaultUV M u v i)).x ≤ 13 / 10 := by
  rw [defaultUV_exact M hM]
  obtain ⟨_, hcos, hsin, _, _⟩ := hM
  simp only [rotateZ, hcos, hsin]
  obtain ⟨hr0, hr1⟩ := strip_radius_range v
  generalize 13 / 10 * (Real.cos (Real.pi * v) + 1) / 2 = r at hr0 hr1 ⊢
  generalize 2 * Real.pi * v + Real.pi * u / 4 + Real.pi * (i : ℝ) = t
  have e : Real.cos phi * (r * Real.cos t) - Real.sin phi * (r * Real.sin t)
      = r * Real.cos (phi + t) := by
    rw [Real.cos_add]; ring
  rw [e]
  have c1 := Real.neg_one_le_cos (phi + t)
  have c2 := Real.cos_le_one (phi + t)
  have u1 : r * Real.cos (phi + t) ≤ r * 1 := mul_le_mul_of_nonneg_left c2 hr0
  have u2 : r * (-1) ≤ r * Real.cos (phi + t) := mul_le_mul_of_nonneg_left c1 hr0
  constructor <;> linarith

/-- With the exact square root, normalizing a non-zero vector gives a unit vector. -/
theorem normalize_unit (M : Libm ℝ) (hM : M.exact) (w : vec3 ℝ) (hw : 0 < dot w w) :
    M.sqrtf (dot w w) ≠ 0 ∧ dot (normalize M w) (normalize M w) = 1 := by
  obtain ⟨hsqrt, _, _, _, _⟩ := hM
  have hn : Real.sqrt (dot w w) ≠ 0 := Real.sqrt_ne_zero'.mpr hw
  have hsq : Real.sqrt (dot w w) * Real.sqrt (dot w w) = dot w w :=
    Real.mul_self_sqrt hw.le
  refine ⟨by rw [hsqrt]; exact hn, ?_⟩
  simp only [normalize, hsqrt]
  generalize Real.sqrt (dot w w) = n at hn hsq
  have e : dot (⟨w.x / n, w.y / n, w.z / n⟩ : vec3 ℝ) ⟨w.x / n, w.y / n, w.z / n⟩
      = dot w w / (n * n) := by
    simp only [dot]
    field_simp
  rw [e, hsq]
  exact div_self (ne_of_gt hw)

/-- On `[-1, 1)` the cosine of `π v` is -1 only at `v = -1`. -/
theorem cos_pi_mul_eq_neg_one_iff (v : ℝ) (hv1 : -1 ≤ v) (hv2 : v < 1) :
    Real.cos (Real.pi * v) = -1 ↔ v = -1 := by
  constructor
  · intro h
    have h1 : Real.cos (Real.pi * v + Real.pi) = 1 := by
      rw [Real.cos_add_pi, h]; norm_num
    obtain ⟨n, hn⟩ := (Real.cos_eq_one_iff _).mp h1
    have hpi := Real.pi_pos
    have e : (v : ℝ) = 2 * (n : ℝ) - 1 := by
      have : Real.pi * (2 * (n : ℝ) - 1 - v) = 0 := by linarith
      rcases mul_eq_zero.mp this with h0 | h0
      · exact absurd h0 (ne_of_gt hpi)
      · linarith
    have hn0 : (0 : ℝ) ≤ (n : ℝ) := by linarith
    have hn1 : (n : ℝ) < 1 := by linarith
    have hn0i : (0 : ℤ) ≤ n := by exact_mod_cast hn0
    have hn1i : n < 1 := by exact_mod_cast hn1
    have hnz : n = 0 := by omega
    rw [e, hnz]; norm_num
  · intro h
    rw [h, mul_neg, mul_one, Real.cos_neg, Real.cos_pi]

/-- A strip point is on the z axis exactly when the radius vanishes, i.e. when
`cos πv = -1`. -/
theorem strip_on_axis_iff (M : Libm ℝ) (hM : M.exact) (u v : ℝ) (i : Int) :
    ((defaultUV M u v i).x = 0 ∧ (defaultUV M u v i).y = 0) ↔
      Real.cos (Real.pi * v) = -1 := by
  rw [defaultUV_exact M hM]
  dsimp only
  generalize 2 * Real.pi * v + Real.pi * u / 4 + Real.pi * (i : ℝ) = t
  constructor
  · rintro ⟨hx, hy⟩
    have hcs := Real.cos_sq_add_sin_sq t
    have hr : (13 / 10 * (Real.cos (Real.pi * v) + 1) / 2) ^ 2 = 0 := by
      have : (13 / 10 * (Real.cos (Real.pi * v) + 1) / 2) ^ 2 =
          (13 / 10 * (Real.cos (Real.pi * v) + 1) / 2 * Real.cos t) ^ 2 +
          (13 / 10 * (Real.cos (Real.pi * v) + 1) / 2 * Real.sin t) ^ 2 := by
        have e : ∀ r c d : ℝ, c ^ 2 + d ^ 2 = 1 → r ^ 2 = (r * c) ^ 2 + (r * d) ^ 2 := by
          intro r c d h
          have : (r * c) ^ 2 + (r * d) ^ 2 = r ^ 2 * (c ^ 2 + d ^ 2) := by ring
          rw [this, h, mul_one]
        exact e _ _ _ hcs
      rw [this, hx, hy]; norm_num
    have := pow_eq_zero_iff (two_ne_zero) |>.mp hr
    linarith
  · intro h
    rw [h]
    norm_num

end StripFacts

/-- C15: for the twisted strip, every strip index, every `u`, `v` and every rotation
angle, the depth `coordsTrans.x = coordsRot.x + 6` lies in `[4.7, 7.3]`; so it is
positive, the perspective division has a non-zero divisor, and the depth is below the
sentinel 1000. -/
theorem strip_depth_range (M : Libm ℝ) (hM : M.exact) (u v phi : ℝ) (i : Int) :
    (translateK2 (rotateZ (M.cosf phi) (M.sinf phi) (defaultUV M u v i))).x =
      (rotateZ (M.cosf phi) (M.sinf phi) (defaultUV M u v i)).x + 6 ∧
    47 / 10 ≤ (translateK2 (rotateZ (M.cosf phi) (M.sinf phi) (defaultUV M u v i))).x ∧
    (translateK2 (rotateZ (M.cosf phi) (M.sinf phi) (defaultUV M u v i))).x ≤ 73 / 10 ∧
    0 < (translateK2 (rotateZ (M.cosf phi) (M.sinf phi) (defaultUV M u v i))).x ∧
    (translateK2 (rotateZ (M.cosf phi) (M.sinf phi) (defaultUV M u v i))).x ≠ 0 ∧
    (translateK2 (rotateZ (M.cosf phi) (M.sinf phi) (defaultUV M u v i))).x < 1000 := by
  obtain ⟨h1, h2⟩ := strip_rotated_x_range M hM u v phi i
  have e : (translateK2 (rotateZ (M.cosf phi) (M.sinf phi) (defaultUV M u v i))).x =
      (rotateZ (M.cosf phi) (M.sinf phi) (defaultUV M u v i)).x + 6 := by
    simp only [translateK2, K2]
  rw [e]
  refine ⟨rfl, by linarith, by linarith, by linarith, ?_, by linarith⟩
  have : 0 < (rotateZ (M.cosf phi) (M.sinf phi) (defaultUV M u v i)).x + 6 := by linarith
  exact ne_of_gt this

/-- Witness of C15 with the exact library at `u = v = 0`, strip 0, angle 0: the strip
point is `(1.3, 0, 0)` and the depth is 7.3. -/
theorem strip_depth_range_witness :
    Libm.exact
        (Libm.mk Real.sqrt Real.cos Real.sin (fun y x => Complex.arg ⟨x, y⟩) Real.pi) ∧
    (translateK2 (rotateZ (Real.cos 0) (Real.sin 0)
      (defaultUV
        (Libm.mk Real.sqrt Real.cos Real.sin (fun y x => Complex.arg ⟨x, y⟩) Real.pi)
        0 0 0))).x ≤ 73 / 10 ∧
    47 / 10 ≤ (translateK2 (rotateZ (Real.cos 0) (Real.sin 0)
      (defaultUV
        (Libm.mk Real.sqrt Real.cos Real.sin (fun y x => Complex.arg ⟨x, y⟩) Real.pi)
        0 0 0))).x :=
  by
  have h := strip_depth_range
    (Libm.mk Real.sqrt Real.cos Real.sin (fun y x => Complex.arg ⟨x, y⟩) Real.pi)
    ⟨rfl, rfl, rfl, rfl, rfl⟩ 0 0 0 0
  exact ⟨⟨rfl, rfl, rfl, rfl, rfl⟩, h.2.2.1, h.2.1⟩

/-- C20: with `NUM_SURFACES = 2` and the exact library, the second strip is the first
one rotated by `π` about the z axis: `defaultUV(u, v, 1) = (-x, -y, z)` where
`(x, y, z) = defaultUV(u, v, 0)`; the rotation by `π` maps each strip onto the other,
so their union is invariant under it. -/
theorem strip_half_turn_symmetry (M : Libm ℝ) (hM : M.exact) (u v : ℝ) :
    defaultUV M u v 1 =
      ⟨-(defaultUV M u v 0).x, -(defaultUV M u v 0).y, (defaultUV M u v 0).z⟩ ∧
    rotateZ (M.cosf M.PI) (M.sinf M.PI) (defaultUV M u v 0) = defaultUV M u v 1 ∧
    rotateZ (M.cosf M.PI) (M.sinf M.PI) (defaultUV M u v 1) = defaultUV M u v 0 := by
  have h0 := defaultUV_exact M hM u v 0
  have h1 := defaultUV_exact M hM u v 1
  obtain ⟨_, hcos, hsin, _, hpi⟩ := hM
  simp only [Int.cast_zero, Int.cast_one, mul_zero, mul_one, add_zero, Real.cos_add_pi,
    Real.sin_add_pi] at h0 h1
  rw [h0, h1]
  simp only [rotateZ, hcos, hsin, hpi, Real.cos_pi, Real.sin_pi]
  refine ⟨?_, ?_, ?_⟩
  · congr 1 <;> ring
  · congr 1 <;> ring
  · congr 1 <;> ring

/-- Witness of C20 with the exact library at `u = v = 0`: the points `(1.3, 0, 0)` and
`(-1.3, 0, 0)`. -/
theorem strip_half_turn_symmetry_witness :
    Libm.exact
        (Libm.mk Real.sqrt Real.cos Real.sin (fun y x => Complex.arg ⟨x, y⟩) Real.pi) ∧
    defaultUV
        (Libm.mk Real.sqrt Real.cos Real.sin (fun y x => Complex.arg ⟨x, y⟩) Real.pi)
        0 0 1 =
      ⟨-(defaultUV
          (Libm.mk Real.sqrt Real.cos Real.sin (fun y x => Complex.arg ⟨x, y⟩) Real.pi)
          0 0 0).x,
        -(defaultUV
          (Libm.mk Real.sqrt Real.cos Real.sin (fun y x => Complex.arg ⟨x, y⟩) Real.pi)
          0 0 0).y,
        (defaultUV
          (Libm.mk Real.sqrt Real.cos Real.sin (fun y x => Complex.arg ⟨x, y⟩) Real.pi)
          0 0 0).z⟩ :=
  by
  have h := strip_half_turn_symmetry
    (Libm.mk Real.sqrt Real.cos Real.sin (fun y x => Complex.arg ⟨x, y⟩) Real.pi)
    ⟨rfl, rfl, rfl, rfl, rfl⟩ 0 0
  exact ⟨⟨rfl, rfl, rfl, rfl, rfl⟩, h.1⟩

/-- C11: for every strip index and every `v` in `[-1, 1)` (and every `u`), with
`p = defaultUV(u, v, i)`: `p.x` and `p.y` are both zero exactly when `v = -1`; there
`defaultNormal(p, i)` is the zero vector; everywhere else the vector handed to
`normalize` has a non-zero norm, so nothing is divided by zero, and
`defaultNormal(p, i)` has Euclidean length 1. -/
theorem defaultNormal_unit_or_zero (M : Libm ℝ) (hM : M.exact) (u v : ℝ) (i : Int)
    (hv1 : -1 ≤ v) (hv2 : v < 1) :
    (((defaultUV M u v i).x = 0 ∧ (defaultUV M u v i).y = 0) ↔ v = -1) ∧
    (v = -1 → defaultNormal M (defaultUV M u v i) i = ⟨0, 0, 0⟩) ∧
    (v ≠ -1 →
      M.sqrtf (dot
        (⟨(defaultUV M u v i).x, (defaultUV M u v i).y,
          magnitude2 M (defaultUV M u v i).x (defaultUV M u v i).y *
            (WIDTH_SCALE * M.PI / 2 * M.sinf (M.PI * (defaultUV M u v i).z))⟩ : vec3 ℝ)
        ⟨(defaultUV M u v i).x, (defaultUV M u v i).y,
          magnitude2 M (defaultUV M u v i).x (defaultUV M u v i).y *
            (WIDTH_SCALE * M.PI / 2 * M.sinf (M.PI * (defaultUV M u v i).z))⟩) ≠ 0 ∧
      dot (defaultNormal M (defaultUV M u v i) i) (defaultNormal M (defaultUV M u v i) i)
        = 1 ∧
      M.sqrtf (dot (defaultNormal M (defaultUV M u v i) i)
        (defaultNormal M (defaultUV M u v i) i)) = 1) := by
  have haxis : ((defaultUV M u v i).x = 0 ∧ (defaultUV M u v i).y = 0) ↔ v = -1 :=
    (strip_on_axis_iff M hM u v i).trans (cos_pi_mul_eq_neg_one_iff v hv1 hv2)
  refine ⟨haxis, ?_, ?_⟩
  · intro hv
    unfold defaultNormal
    rw [if_pos (haxis.mpr hv)]
  · intro hv
    have hne : ¬ ((defaultUV M u v i).x = 0 ∧ (defaultUV M u v i).y = 0) :=
      fun h => hv (haxis.mp h)
    have hpos : 0 < dot
        (⟨(defaultUV M u v i).x, (defaultUV M u v i).y,
          magnitude2 M (defaultUV M u v i).x (defaultUV M u v i).y *
            (WIDTH_SCALE * M.PI / 2 * M.sinf (M.PI * (defaultUV M u v i).z))⟩ : vec3 ℝ)
        ⟨(defaultUV M u v i).x, (defaultUV M u v i).y,
          magnitude2 M (defaultUV M u v i).x (defaultUV M u v i).y *
            (WIDTH_SCALE * M.PI / 2 * M.sinf (M.PI * (defaultUV M u v i).z))⟩ := by
      simp only [dot]
      generalize magnitude2 M (defaultUV M u v i).x (defaultUV M u v i).y *
        (WIDTH_SCALE * M.PI / 2 * M.sinf (M.PI * (defaultUV M u v i).z)) = m
      have hxy : 0 < (defaultUV M u v i).x * (defaultUV M u v i).x +
          (defaultUV M u v i).y * (defaultUV M u v i).y := by
        by_contra hcon
        have h1 := mul_self_nonneg (defaultUV M u v i).x
        have h2 := mul_self_nonneg (defaultUV M u v i).y
        have hx0 : (defaultUV M u v i).x * (defaultUV M u v i).x = 0 := by linarith
        have hy0 : (defaultUV M u v i).y * (defaultUV M u v i).y = 0 := by linarith
        exact hne ⟨mul_self_eq_zero.mp hx0, mul_self_eq_zero.mp hy0⟩
      have := mul_self_nonneg m
      linarith
    obtain ⟨hnz, hunit⟩ := normalize_unit M hM _ hpos
    have hdef : defaultNormal M (defaultUV M u v i) i = normalize M
        ⟨(defaultUV M u v i).x, (defaultUV M u v i).y,
          magnitude2 M (defaultUV M u v i).x (defaultUV M u v i).y *
            (WIDTH_SCALE * M.PI / 2 * M.sinf (M.PI * (defaultUV M u v i).z))⟩ := by
      unfold defaultNormal
      rw [if_neg hne]
    refine ⟨hnz, by rw [hdef]; exact hunit, ?_⟩
    rw [hdef, hunit, hM.1, Real.sqrt_one]

/-- Witness of C11 with the exact library at `u = v = 0`, strip 0, where the strip
point is `(1.3, 0, 0)`: the normal has length 1. -/
theorem defaultNormal_unit_or_zero_witness :
    Libm.exact
        (Libm.mk Real.sqrt Real.cos Real.sin (fun y x => Complex.arg ⟨x, y⟩) Real.pi) ∧
    (-1 : ℝ) ≤ 0 ∧ (0 : ℝ) < 1 ∧ (0 : ℝ) ≠ -1 ∧
    dot
      (defaultNormal
        (Libm.mk Real.sqrt Real.cos Real.sin (fun y x => Complex.arg ⟨x, y⟩) Real.pi)
        (defaultUV
          (Libm.mk Real.sqrt Real.cos Real.sin (fun y x => Complex.arg ⟨x, y⟩) Real.pi)
          0 0 0) 0)
      (defaultNormal
        (Libm.mk Real.sqrt Real.cos Real.sin (fun y x => Complex.arg ⟨x, y⟩) Real.pi)
        (defaultUV
          (Libm.mk Real.sqrt Real.cos Real.sin (fun y x => Complex.arg ⟨x, y⟩) Real.pi)
          0 0 0) 0) = 1 := by
  have h := defaultNormal_unit_or_zero
    (Libm.mk Real.sqrt Real.cos Real.sin (fun y x => Complex.arg ⟨x, y⟩) Real.pi)
    ⟨rfl, rfl, rfl, rfl, rfl⟩ 0 0 0 (by norm_num) (by norm_num)
  exact ⟨⟨rfl, rfl, rfl, rfl, rfl⟩, by norm_num, by norm_num, by norm_num,
    (h.2.2 (by norm_num)).2.1⟩

end Raytrace
